import Mathlib

/-!
Verification of the prolific metadata-activity tracker core
(scan → snapshot → diff → estimate pipeline and run orchestration).

The definitions below are a shallow embedding of the Python sources:
  * `prolific_agent/scanner.py`   (exclusion matching, FileMeta)
  * `prolific_agent/state.py`     (Snapshot, load/save)
  * `prolific_agent/diff.py`      (compute_diff, merge_diff_aggregates)
  * `prolific_agent/estimate.py`  (language table, LOC estimator)
  * `prolific_agent/run_cycle.py` (run_once orchestration)

Python dicts keyed by strings are embedded as association lists
`List (String × α)` (lookup finds the first matching key; snapshot
dicts have pairwise-distinct keys, carried as `Nodup` hypotheses where
needed), or extensionally as total functions with default `0` / `none`
where only the key → value mapping matters.  Python `int` is `Int`
(counters that only ever increment are `Nat`).
-/

/-- `FileMeta` from `scanner.py`: metadata record for one scanned entry. -/
structure FileMeta where
  rel_path : String
  is_dir : Bool
  size_bytes : Int
  mtime_ns : Int
  ext : String
deriving DecidableEq, Repr

/-- `Snapshot` from `state.py`; `entries` is the dict keyed by rel_path. -/
structure Snapshot where
  schema_version : Int
  root : String
  created_at : String
  entries : List (String × FileMeta)
deriving DecidableEq, Repr

/-- First-match lookup in an association list (Python `dict[key]` /
`dict.get(key)`; snapshot dicts have unique keys). -/
def lookupKey (l : List (String × FileMeta)) (k : String) : Option FileMeta :=
  (l.find? (fun e => decide (e.1 = k))).map (fun e => e.2)

/-- Python `key in dict`. -/
def containsKey (l : List (String × FileMeta)) (k : String) : Bool :=
  (lookupKey l k).isSome

/-- `EXT_TO_LANGUAGE` from `estimate.py`. -/
def EXT_TO_LANGUAGE : List (String × String) :=
  [("py", "Python"), ("pyi", "Python"),
   ("js", "JavaScript"), ("cjs", "JavaScript"), ("mjs", "JavaScript"), ("jsx", "JavaScript"),
   ("ts", "TypeScript"), ("tsx", "TypeScript"),
   ("html", "HTML"), ("htm", "HTML"),
   ("css", "CSS"), ("scss", "CSS"), ("sass", "CSS"), ("less", "CSS"),
   ("go", "Go"), ("rs", "Rust"), ("java", "Java"), ("cs", "C#"),
   ("c", "C"), ("h", "C"),
   ("cc", "C++"), ("cpp", "C++"), ("cxx", "C++"), ("hpp", "C++"), ("hxx", "C++"),
   ("sql", "SQL"), ("sh", "Shell"), ("bash", "Shell"), ("ps1", "Shell")]

/-- `language_from_ext` from `estimate.py`: empty extension is `None`,
otherwise a lookup of the lowercased extension in the static table. -/
def language_from_ext (ext : String) : Option String :=
  if ext = "" then none
  else (EXT_TO_LANGUAGE.find? (fun e => decide (e.1 = ext.toLower))).map (fun e => e.2)

/-- The distinct language names appearing in `EXT_TO_LANGUAGE`. -/
def langNames : List String :=
  ["Python", "JavaScript", "TypeScript", "HTML", "CSS", "Go", "Rust", "Java",
   "C#", "C", "C++", "SQL", "Shell"]

theorem langNames_nodup : langNames.Nodup := by decide

theorem language_from_ext_mem_langNames {e l : String}
    (h : language_from_ext e = some l) : l ∈ langNames := by
  unfold language_from_ext at h
  split at h
  · exact absurd h (by simp)
  · rcases Option.map_eq_some'.mp h with ⟨p, hp, hpl⟩
    have hmem : p ∈ EXT_TO_LANGUAGE := List.mem_of_find?_eq_some hp
    have : p.2 ∈ EXT_TO_LANGUAGE.map (fun e => e.2) := List.mem_map_of_mem _ hmem
    subst hpl
    have hsub : ∀ x ∈ EXT_TO_LANGUAGE.map (fun e => e.2), x ∈ langNames := by decide
    exact hsub _ this

/-- `DiffCounts` from `diff.py`. -/
structure DiffCounts where
  files_added : Nat
  files_removed : Nat
  files_modified : Nat
  folders_added : Nat
  folders_removed : Nat
  folders_modified : Nat
  assets_added : Nat
  assets_modified : Nat
  assets_removed : Nat
deriving DecidableEq, Repr

/-- `DiffAggregates` from `diff.py`; the per-language byte-delta dict is
embedded extensionally as a total function defaulting to `0`
(`d.get(lang, 0)` semantics). -/
structure DiffAggregates where
  counts : DiffCounts
  language_delta_bytes : String → Int
  unknown_delta_bytes : Int
  total_delta_bytes : Int

theorem DiffCounts.fields_eq_iff (a b : DiffCounts) :
    a = b ↔ (a.files_added = b.files_added ∧ a.files_removed = b.files_removed ∧
      a.files_modified = b.files_modified ∧ a.folders_added = b.folders_added ∧
      a.folders_removed = b.folders_removed ∧ a.folders_modified = b.folders_modified ∧
      a.assets_added = b.assets_added ∧ a.assets_modified = b.assets_modified ∧
      a.assets_removed = b.assets_removed) := by
  constructor
  · rintro rfl; exact ⟨rfl, rfl, rfl, rfl, rfl, rfl, rfl, rfl, rfl⟩
  · rintro ⟨h1, h2, h3, h4, h5, h6, h7, h8, h9⟩
    cases a; cases b; simp_all

theorem DiffAggregates.parts_eq_iff (a b : DiffAggregates) :
    a = b ↔ (a.counts = b.counts ∧ a.language_delta_bytes = b.language_delta_bytes ∧
      a.unknown_delta_bytes = b.unknown_delta_bytes ∧
      a.total_delta_bytes = b.total_delta_bytes) := by
  constructor
  · rintro rfl; exact ⟨rfl, rfl, rfl, rfl⟩
  · rintro ⟨h1, h2, h3, h4⟩
    cases a; cases b; simp_all

instance : Zero DiffCounts := ⟨⟨0, 0, 0, 0, 0, 0, 0, 0, 0⟩⟩

instance : Add DiffCounts :=
  ⟨fun a b =>
    ⟨a.files_added + b.files_added, a.files_removed + b.files_removed,
     a.files_modified + b.files_modified, a.folders_added + b.folders_added,
     a.folders_removed + b.folders_removed, a.folders_modified + b.folders_modified,
     a.assets_added + b.assets_added, a.assets_modified + b.assets_modified,
     a.assets_removed + b.assets_removed⟩⟩

instance : Zero DiffAggregates := ⟨⟨0, fun _ => 0, 0, 0⟩⟩

instance : Add DiffAggregates :=
  ⟨fun a b =>
    ⟨a.counts + b.counts,
     fun l => a.language_delta_bytes l + b.language_delta_bytes l,
     a.unknown_delta_bytes + b.unknown_delta_bytes,
     a.total_delta_bytes + b.total_delta_bytes⟩⟩

@[simp] theorem DiffCounts.add_files_added (a b : DiffCounts) :
    (a + b).files_added = a.files_added + b.files_added := rfl
@[simp] theorem DiffCounts.add_files_removed (a b : DiffCounts) :
    (a + b).files_removed = a.files_removed + b.files_removed := rfl
@[simp] theorem DiffCounts.add_files_modified (a b : DiffCounts) :
    (a + b).files_modified = a.files_modified + b.files_modified := rfl
@[simp] theorem DiffCounts.add_folders_added (a b : DiffCounts) :
    (a + b).folders_added = a.folders_added + b.folders_added := rfl
@[simp] theorem DiffCounts.add_folders_removed (a b : DiffCounts) :
    (a + b).folders_removed = a.folders_removed + b.folders_removed := rfl
@[simp] theorem DiffCounts.add_folders_modified (a b : DiffCounts) :
    (a + b).folders_modified = a.folders_modified + b.folders_modified := rfl
@[simp] theorem DiffCounts.add_assets_added (a b : DiffCounts) :
    (a + b).assets_added = a.assets_added + b.assets_added := rfl
@[simp] theorem DiffCounts.add_assets_modified (a b : DiffCounts) :
    (a + b).assets_modified = a.assets_modified + b.assets_modified := rfl
@[simp] theorem DiffCounts.add_assets_removed (a b : DiffCounts) :
    (a + b).assets_removed = a.assets_removed + b.assets_removed := rfl

@[simp] theorem DiffCounts.zero_files_added : (0 : DiffCounts).files_added = 0 := rfl
@[simp] theorem DiffCounts.zero_files_removed : (0 : DiffCounts).files_removed = 0 := rfl
@[simp] theorem DiffCounts.zero_files_modified : (0 : DiffCounts).files_modified = 0 := rfl
@[simp] theorem DiffCounts.zero_folders_added : (0 : DiffCounts).folders_added = 0 := rfl
@[simp] theorem DiffCounts.zero_folders_removed : (0 : DiffCounts).folders_removed = 0 := rfl
@[simp] theorem DiffCounts.zero_folders_modified : (0 : DiffCounts).folders_modified = 0 := rfl
@[simp] theorem DiffCounts.zero_assets_added : (0 : DiffCounts).assets_added = 0 := rfl
@[simp] theorem DiffCounts.zero_assets_modified : (0 : DiffCounts).assets_modified = 0 := rfl
@[simp] theorem DiffCounts.zero_assets_removed : (0 : DiffCounts).assets_removed = 0 := rfl

@[simp] theorem DiffAggregates.add_counts (a b : DiffAggregates) :
    (a + b).counts = a.counts + b.counts := rfl
@[simp] theorem DiffAggregates.add_language_delta_bytes (a b : DiffAggregates) (l : String) :
    (a + b).language_delta_bytes l = a.language_delta_bytes l + b.language_delta_bytes l := rfl
@[simp] theorem DiffAggregates.add_unknown_delta_bytes (a b : DiffAggregates) :
    (a + b).unknown_delta_bytes = a.unknown_delta_bytes + b.unknown_delta_bytes := rfl
@[simp] theorem DiffAggregates.add_total_delta_bytes (a b : DiffAggregates) :
    (a + b).total_delta_bytes = a.total_delta_bytes + b.total_delta_bytes := rfl

@[simp] theorem DiffAggregates.zero_counts : (0 : DiffAggregates).counts = 0 := rfl
@[simp] theorem DiffAggregates.zero_language_delta_bytes (l : String) :
    (0 : DiffAggregates).language_delta_bytes l = 0 := rfl
@[simp] theorem DiffAggregates.zero_unknown_delta_bytes :
    (0 : DiffAggregates).unknown_delta_bytes = 0 := rfl
@[simp] theorem DiffAggregates.zero_total_delta_bytes :
    (0 : DiffAggregates).total_delta_bytes = 0 := rfl

instance : AddCommMonoid DiffCounts where
  add_assoc a b c := by
    rw [DiffCounts.fields_eq_iff]
    refine ⟨?_, ?_, ?_, ?_, ?_, ?_, ?_, ?_, ?_⟩ <;> simp [Nat.add_assoc]
  zero_add a := by
    rw [DiffCounts.fields_eq_iff]
    refine ⟨?_, ?_, ?_, ?_, ?_, ?_, ?_, ?_, ?_⟩ <;> simp
  add_zero a := by
    rw [DiffCounts.fields_eq_iff]
    refine ⟨?_, ?_, ?_, ?_, ?_, ?_, ?_, ?_, ?_⟩ <;> simp
  add_comm a b := by
    rw [DiffCounts.fields_eq_iff]
    refine ⟨?_, ?_, ?_, ?_, ?_, ?_, ?_, ?_, ?_⟩ <;> simp [Nat.add_comm]
  nsmul := nsmulRec

instance : AddCommMonoid DiffAggregates where
  add_assoc a b c := by
    rw [DiffAggregates.parts_eq_iff]
    refine ⟨?_, funext fun l => ?_, ?_, ?_⟩ <;> simp [add_assoc]
  zero_add a := by
    rw [DiffAggregates.parts_eq_iff]
    refine ⟨?_, funext fun l => ?_, ?_, ?_⟩ <;> simp
  add_zero a := by
    rw [DiffAggregates.parts_eq_iff]
    refine ⟨?_, funext fun l => ?_, ?_, ?_⟩ <;> simp
  add_comm a b := by
    rw [DiffAggregates.parts_eq_iff]
    refine ⟨?_, funext fun l => ?_, ?_, ?_⟩ <;> simp [add_comm]
  nsmul := nsmulRec

/-! ## The diff engine (`compute_diff` from `diff.py`)

The three Python loops over `added`, `removed` and `common` are embedded
as folds of the literal loop bodies over the corresponding lists.  Python
iterates these as sets in unspecified order; every loop body only adds to
integer accumulators, so the result is order-independent and we fold in
list order of the underlying snapshot. -/

/-- `d[lang] = d.get(lang, 0) + delta` on the extensional dict embedding. -/
def bumpLang (m : String → Int) (lang : String) (delta : Int) : String → Int :=
  fun k => if k = lang then m k + delta else m k

/-- Body of the `for rel in added:` loop of `compute_diff`. -/
def addedStep (acc : DiffAggregates) (meta : FileMeta) : DiffAggregates :=
  if meta.is_dir then
    { acc with counts := { acc.counts with folders_added := acc.counts.folders_added + 1 } }
  else
    let delta := meta.size_bytes
    let acc1 : DiffAggregates :=
      { acc with
        counts := { acc.counts with files_added := acc.counts.files_added + 1 },
        total_delta_bytes := acc.total_delta_bytes + delta }
    match language_from_ext meta.ext with
    | none =>
      { acc1 with
        counts := { acc1.counts with assets_added := acc1.counts.assets_added + 1 },
        unknown_delta_bytes := acc1.unknown_delta_bytes + delta }
    | some lang =>
      { acc1 with language_delta_bytes := bumpLang acc1.language_delta_bytes lang delta }

/-- Body of the `for rel in removed:` loop of `compute_diff`. -/
def removedStep (acc : DiffAggregates) (meta : FileMeta) : DiffAggregates :=
  if meta.is_dir then
    { acc with counts := { acc.counts with folders_removed := acc.counts.folders_removed + 1 } }
  else
    let delta := -meta.size_bytes
    let acc1 : DiffAggregates :=
      { acc with
        counts := { acc.counts with files_removed := acc.counts.files_removed + 1 },
        total_delta_bytes := acc.total_delta_bytes + delta }
    match language_from_ext meta.ext with
    | none =>
      { acc1 with
        counts := { acc1.counts with assets_removed := acc1.counts.assets_removed + 1 },
        unknown_delta_bytes := acc1.unknown_delta_bytes + delta }
    | some lang =>
      { acc1 with language_delta_bytes := bumpLang acc1.language_delta_bytes lang delta }

/-- Body of the `for rel in common:` loop of `compute_diff`, taking the
old and new metadata of one common path. -/
def commonStep (acc : DiffAggregates) (p : FileMeta × FileMeta) : DiffAggregates :=
  let old_meta := p.1
  let new_meta := p.2
  if old_meta.is_dir ≠ new_meta.is_dir then
    -- Type flip (file<->dir) treated as remove+add
    if old_meta.is_dir then
      { acc with
        counts := { acc.counts with
          folders_removed := acc.counts.folders_removed + 1,
          files_added := acc.counts.files_added + 1 },
        total_delta_bytes := acc.total_delta_bytes + new_meta.size_bytes }
    else
      { acc with
        counts := { acc.counts with
          files_removed := acc.counts.files_removed + 1,
          folders_added := acc.counts.folders_added + 1 },
        total_delta_bytes := acc.total_delta_bytes + (-old_meta.size_bytes) }
  else if new_meta.is_dir then
    if new_meta.mtime_ns ≠ old_meta.mtime_ns then
      { acc with counts := { acc.counts with
          folders_modified := acc.counts.folders_modified + 1 } }
    else acc
  else if new_meta.size_bytes ≠ old_meta.size_bytes ∨ new_meta.mtime_ns ≠ old_meta.mtime_ns then
    let delta := new_meta.size_bytes - old_meta.size_bytes
    let acc1 : DiffAggregates :=
      { acc with
        counts := { acc.counts with files_modified := acc.counts.files_modified + 1 },
        total_delta_bytes := acc.total_delta_bytes + delta }
    match language_from_ext new_meta.ext with
    | none =>
      { acc1 with
        counts := { acc1.counts with assets_modified := acc1.counts.assets_modified + 1 },
        unknown_delta_bytes := acc1.unknown_delta_bytes + delta }
    | some lang =>
      { acc1 with language_delta_bytes := bumpLang acc1.language_delta_bytes lang delta }
  else acc

/-- The entries of `old` when present, else the empty dict
(`old.entries if old else {}`). -/
def oldEntriesOf (old : Option Snapshot) : List (String × FileMeta) :=
  match old with
  | some o => o.entries
  | none => []

/-- `added = new_keys - old_keys`, listed with their new metadata. -/
def addedMetas (oldE newE : List (String × FileMeta)) : List FileMeta :=
  (newE.filter (fun e => !(containsKey oldE e.1))).map (fun e => e.2)

/-- `removed = old_keys - new_keys`, listed with their old metadata. -/
def removedMetas (oldE newE : List (String × FileMeta)) : List FileMeta :=
  (oldE.filter (fun e => !(containsKey newE e.1))).map (fun e => e.2)

/-- `common = old_keys & new_keys`, listed as (old meta, new meta) pairs. -/
def commonPairs (oldE newE : List (String × FileMeta)) : List (FileMeta × FileMeta) :=
  newE.filterMap (fun e => (lookupKey oldE e.1).map (fun om => (om, e.2)))

/-- `compute_diff` from `diff.py`. -/
def compute_diff (old : Option Snapshot) (new : Snapshot) : DiffAggregates :=
  let old_entries := oldEntriesOf old
  let new_entries := new.entries
  let acc0 : DiffAggregates := 0
  let acc1 := (addedMetas old_entries new_entries).foldl addedStep acc0
  let acc2 := (removedMetas old_entries new_entries).foldl removedStep acc1
  (commonPairs old_entries new_entries).foldl commonStep acc2

/-- `merge_diff_aggregates` from `diff.py`: the all-zero aggregate for an
empty list, otherwise per-field sums across the list (the nested
per-language dict loop is pointwise summation on the extensional
embedding). -/
def merge_diff_aggregates (diffs : List DiffAggregates) : DiffAggregates :=
  match diffs with
  | [] => 0
  | _ =>
    { counts :=
        { files_added := (diffs.map (fun d => d.counts.files_added)).sum,
          files_removed := (diffs.map (fun d => d.counts.files_removed)).sum,
          files_modified := (diffs.map (fun d => d.counts.files_modified)).sum,
          folders_added := (diffs.map (fun d => d.counts.folders_added)).sum,
          folders_removed := (diffs.map (fun d => d.counts.folders_removed)).sum,
          folders_modified := (diffs.map (fun d => d.counts.folders_modified)).sum,
          assets_added := (diffs.map (fun d => d.counts.assets_added)).sum,
          assets_modified := (diffs.map (fun d => d.counts.assets_modified)).sum,
          assets_removed := (diffs.map (fun d => d.counts.assets_removed)).sum },
      language_delta_bytes := fun lang => (diffs.map (fun d => d.language_delta_bytes lang)).sum,
      unknown_delta_bytes := (diffs.map (fun d => d.unknown_delta_bytes)).sum,
      total_delta_bytes := (diffs.map (fun d => d.total_delta_bytes)).sum }

/-! ## Per-entry contributions and the sum form of `compute_diff`

Each loop body only ever adds to the accumulator, so it equals
`acc + contribution(entry)` for a per-entry contribution aggregate;
`compute_diff` is then the sum of all contributions. -/

/-- The dict `{lang: delta}` as an extensional map. -/
def singleLang (lang : String) (delta : Int) : String → Int :=
  fun k => if k = lang then delta else 0

/-- What one added entry contributes to the aggregates. -/
def addedContrib (meta : FileMeta) : DiffAggregates :=
  if meta.is_dir then
    { (0 : DiffAggregates) with counts := { (0 : DiffCounts) with folders_added := 1 } }
  else
    match language_from_ext meta.ext with
    | none =>
      { counts := { (0 : DiffCounts) with files_added := 1, assets_added := 1 },
        language_delta_bytes := fun _ => 0,
        unknown_delta_bytes := meta.size_bytes,
        total_delta_bytes := meta.size_bytes }
    | some lang =>
      { counts := { (0 : DiffCounts) with files_added := 1 },
        language_delta_bytes := singleLang lang meta.size_bytes,
        unknown_delta_bytes := 0,
        total_delta_bytes := meta.size_bytes }

/-- What one removed entry contributes to the aggregates. -/
def removedContrib (meta : FileMeta) : DiffAggregates :=
  if meta.is_dir then
    { (0 : DiffAggregates) with counts := { (0 : DiffCounts) with folders_removed := 1 } }
  else
    match language_from_ext meta.ext with
    | none =>
      { counts := { (0 : DiffCounts) with files_removed := 1, assets_removed := 1 },
        language_delta_bytes := fun _ => 0,
        unknown_delta_bytes := -meta.size_bytes,
        total_delta_bytes := -meta.size_bytes }
    | some lang =>
      { counts := { (0 : DiffCounts) with files_removed := 1 },
        language_delta_bytes := singleLang lang (-meta.size_bytes),
        unknown_delta_bytes := 0,
        total_delta_bytes := -meta.size_bytes }

/-- What one common path (old meta, new meta) contributes. -/
def commonContrib (om nm : FileMeta) : DiffAggregates :=
  if om.is_dir ≠ nm.is_dir then
    if om.is_dir then
      { counts := { (0 : DiffCounts) with folders_removed := 1, files_added := 1 },
        language_delta_bytes := fun _ => 0,
        unknown_delta_bytes := 0,
        total_delta_bytes := nm.size_bytes }
    else
      { counts := { (0 : DiffCounts) with files_removed := 1, folders_added := 1 },
        language_delta_bytes := fun _ => 0,
        unknown_delta_bytes := 0,
        total_delta_bytes := -om.size_bytes }
  else if nm.is_dir then
    if nm.mtime_ns ≠ om.mtime_ns then
      { (0 : DiffAggregates) with counts := { (0 : DiffCounts) with folders_modified := 1 } }
    else 0
  else if nm.size_bytes ≠ om.size_bytes ∨ nm.mtime_ns ≠ om.mtime_ns then
    match language_from_ext nm.ext with
    | none =>
      { counts := { (0 : DiffCounts) with files_modified := 1, assets_modified := 1 },
        language_delta_bytes := fun _ => 0,
        unknown_delta_bytes := nm.size_bytes - om.size_bytes,
        total_delta_bytes := nm.size_bytes - om.size_bytes }
    | some lang =>
      { counts := { (0 : DiffCounts) with files_modified := 1 },
        language_delta_bytes := singleLang lang (nm.size_bytes - om.size_bytes),
        unknown_delta_bytes := 0,
        total_delta_bytes := nm.size_bytes - om.size_bytes }
  else 0

theorem bumpLang_eq (m : String → Int) (lang : String) (delta : Int) :
    bumpLang m lang delta = fun k => m k + singleLang lang delta k := by
  funext k
  unfold bumpLang singleLang
  split <;> simp

theorem addedStep_eq (acc : DiffAggregates) (meta : FileMeta) :
    addedStep acc meta = acc + addedContrib meta := by
  unfold addedStep addedContrib
  cases hd : meta.is_dir with
  | true =>
    simp only [if_pos]
    rw [DiffAggregates.parts_eq_iff]
    refine ⟨?_, funext fun l => ?_, ?_, ?_⟩ <;>
      first
        | (rw [DiffCounts.fields_eq_iff]
           refine ⟨?_, ?_, ?_, ?_, ?_, ?_, ?_, ?_, ?_⟩ <;> simp)
        | simp
  | false =>
    simp only [Bool.false_eq_true, if_false]
    cases hl : language_from_ext meta.ext with
    | none =>
      rw [DiffAggregates.parts_eq_iff]
      refine ⟨?_, funext fun l => ?_, ?_, ?_⟩ <;>
        first
          | (rw [DiffCounts.fields_eq_iff]
             refine ⟨?_, ?_, ?_, ?_, ?_, ?_, ?_, ?_, ?_⟩ <;> simp)
          | simp
    | some lang =>
      dsimp only
      rw [DiffAggregates.parts_eq_iff]
      refine ⟨?_, ?_, ?_, ?_⟩
      · rw [DiffCounts.fields_eq_iff]
        refine ⟨?_, ?_, ?_, ?_, ?_, ?_, ?_, ?_, ?_⟩ <;> simp
      · rw [bumpLang_eq]; rfl
      · simp
      · simp

theorem removedStep_eq (acc : DiffAggregates) (meta : FileMeta) :
    removedStep acc meta = acc + removedContrib meta := by
  unfold removedStep removedContrib
  cases hd : meta.is_dir with
  | true =>
    simp only [if_pos]
    rw [DiffAggregates.parts_eq_iff]
    refine ⟨?_, funext fun l => ?_, ?_, ?_⟩ <;>
      first
        | (rw [DiffCounts.fields_eq_iff]
           refine ⟨?_, ?_, ?_, ?_, ?_, ?_, ?_, ?_, ?_⟩ <;> simp)
        | simp
  | false =>
    simp only [Bool.false_eq_true, if_false]
    cases hl : language_from_ext meta.ext with
    | none =>
      rw [DiffAggregates.parts_eq_iff]
      refine ⟨?_, funext fun l => ?_, ?_, ?_⟩ <;>
        first
          | (rw [DiffCounts.fields_eq_iff]
             refine ⟨?_, ?_, ?_, ?_, ?_, ?_, ?_, ?_, ?_⟩ <;> simp)
          | simp
    | some lang =>
      dsimp only
      rw [DiffAggregates.parts_eq_iff]
      refine ⟨?_, ?_, ?_, ?_⟩
      · rw [DiffCounts.fields_eq_iff]
        refine ⟨?_, ?_, ?_, ?_, ?_, ?_, ?_, ?_, ?_⟩ <;> simp
      · rw [bumpLang_eq]; rfl
      · simp
      · simp

theorem commonStep_eq (acc : DiffAggregates) (p : FileMeta × FileMeta) :
    commonStep acc p = acc + commonContrib p.1 p.2 := by
  unfold commonStep commonContrib
  by_cases hflip : p.1.is_dir ≠ p.2.is_dir
  · rw [if_pos hflip, if_pos hflip]
    cases hd : p.1.is_dir <;>
      · simp only [if_pos, Bool.false_eq_true, if_false]
        rw [DiffAggregates.parts_eq_iff]
        refine ⟨?_, funext fun l => ?_, ?_, ?_⟩ <;>
          first
            | (rw [DiffCounts.fields_eq_iff]
               refine ⟨?_, ?_, ?_, ?_, ?_, ?_, ?_, ?_, ?_⟩ <;> simp)
            | simp
  · rw [if_neg hflip, if_neg hflip]
    cases hd : p.2.is_dir with
    | true =>
      simp only [if_pos]
      by_cases hmt : p.2.mtime_ns ≠ p.1.mtime_ns
      · rw [if_pos hmt, if_pos hmt]
        rw [DiffAggregates.parts_eq_iff]
        refine ⟨?_, funext fun l => ?_, ?_, ?_⟩ <;>
          first
            | (rw [DiffCounts.fields_eq_iff]
               refine ⟨?_, ?_, ?_, ?_, ?_, ?_, ?_, ?_, ?_⟩ <;> simp)
            | simp
      · rw [if_neg hmt, if_neg hmt]
        rw [DiffAggregates.parts_eq_iff]
        refine ⟨?_, funext fun l => ?_, ?_, ?_⟩ <;>
          first
            | (rw [DiffCounts.fields_eq_iff]
               refine ⟨?_, ?_, ?_, ?_, ?_, ?_, ?_, ?_, ?_⟩ <;> simp)
            | simp
    | false =>
      simp only [Bool.false_eq_true, if_false]
      by_cases hch : p.2.size_bytes ≠ p.1.size_bytes ∨ p.2.mtime_ns ≠ p.1.mtime_ns
      · rw [if_pos hch, if_pos hch]
        cases hl : language_from_ext p.2.ext with
        | none =>
          rw [DiffAggregates.parts_eq_iff]
          refine ⟨?_, funext fun l => ?_, ?_, ?_⟩ <;>
            first
              | (rw [DiffCounts.fields_eq_iff]
                 refine ⟨?_, ?_, ?_, ?_, ?_, ?_, ?_, ?_, ?_⟩ <;> simp)
              | simp
        | some lang =>
          dsimp only
          rw [DiffAggregates.parts_eq_iff]
          refine ⟨?_, ?_, ?_, ?_⟩
          · rw [DiffCounts.fields_eq_iff]
            refine ⟨?_, ?_, ?_, ?_, ?_, ?_, ?_, ?_, ?_⟩ <;> simp
          · rw [bumpLang_eq]; rfl
          · simp
          · simp
      · rw [if_neg hch, if_neg hch]
        rw [DiffAggregates.parts_eq_iff]
        refine ⟨?_, funext fun l => ?_, ?_, ?_⟩ <;>
          first
            | (rw [DiffCounts.fields_eq_iff]
               refine ⟨?_, ?_, ?_, ?_, ?_, ?_, ?_, ?_, ?_⟩ <;> simp)
            | simp

theorem foldl_step_eq_sum {α : Type} (step : DiffAggregates → α → DiffAggregates)
    (contrib : α → DiffAggregates)
    (hstep : ∀ acc x, step acc x = acc + contrib x) :
    ∀ (l : List α) (acc : DiffAggregates), l.foldl step acc = acc + (l.map contrib).sum := by
  intro l
  induction l with
  | nil => intro acc; simp
  | cons x xs ih =>
    intro acc
    rw [List.foldl_cons, hstep, ih, List.map_cons, List.sum_cons, add_assoc]

/-- `compute_diff` as a sum of per-entry contributions. -/
theorem compute_diff_eq_sums (old : Option Snapshot) (new : Snapshot) :
    compute_diff old new =
      ((addedMetas (oldEntriesOf old) new.entries).map addedContrib).sum
        + ((removedMetas (oldEntriesOf old) new.entries).map removedContrib).sum
        + ((commonPairs (oldEntriesOf old) new.entries).map
            (fun p => commonContrib p.1 p.2)).sum := by
  unfold compute_diff
  dsimp only
  rw [foldl_step_eq_sum addedStep addedContrib addedStep_eq,
      foldl_step_eq_sum removedStep removedContrib removedStep_eq,
      foldl_step_eq_sum commonStep (fun p => commonContrib p.1 p.2) commonStep_eq]
  rw [zero_add]

/-! ## Projections of sums of aggregates -/

theorem sum_files_added (l : List DiffAggregates) :
    l.sum.counts.files_added = (l.map (fun d => d.counts.files_added)).sum := by
  induction l with
  | nil => simp
  | cons d t ih => simp [ih]

theorem sum_files_removed (l : List DiffAggregates) :
    l.sum.counts.files_removed = (l.map (fun d => d.counts.files_removed)).sum := by
  induction l with
  | nil => simp
  | cons d t ih => simp [ih]

theorem sum_files_modified (l : List DiffAggregates) :
    l.sum.counts.files_modified = (l.map (fun d => d.counts.files_modified)).sum := by
  induction l with
  | nil => simp
  | cons d t ih => simp [ih]

theorem sum_folders_added (l : List DiffAggregates) :
    l.sum.counts.folders_added = (l.map (fun d => d.counts.folders_added)).sum := by
  induction l with
  | nil => simp
  | cons d t ih => simp [ih]

theorem sum_folders_removed (l : List DiffAggregates) :
    l.sum.counts.folders_removed = (l.map (fun d => d.counts.folders_removed)).sum := by
  induction l with
  | nil => simp
  | cons d t ih => simp [ih]

theorem sum_folders_modified (l : List DiffAggregates) :
    l.sum.counts.folders_modified = (l.map (fun d => d.counts.folders_modified)).sum := by
  induction l with
  | nil => simp
  | cons d t ih => simp [ih]

theorem sum_assets_added (l : List DiffAggregates) :
    l.sum.counts.assets_added = (l.map (fun d => d.counts.assets_added)).sum := by
  induction l with
  | nil => simp
  | cons d t ih => simp [ih]

theorem sum_assets_modified (l : List DiffAggregates) :
    l.sum.counts.assets_modified = (l.map (fun d => d.counts.assets_modified)).sum := by
  induction l with
  | nil => simp
  | cons d t ih => simp [ih]

theorem sum_assets_removed (l : List DiffAggregates) :
    l.sum.counts.assets_removed = (l.map (fun d => d.counts.assets_removed)).sum := by
  induction l with
  | nil => simp
  | cons d t ih => simp [ih]

theorem sum_language_delta_bytes (l : List DiffAggregates) (lang : String) :
    l.sum.language_delta_bytes lang = (l.map (fun d => d.language_delta_bytes lang)).sum := by
  induction l with
  | nil => simp
  | cons d t ih => simp [ih]

theorem sum_unknown_delta_bytes (l : List DiffAggregates) :
    l.sum.unknown_delta_bytes = (l.map (fun d => d.unknown_delta_bytes)).sum := by
  induction l with
  | nil => simp
  | cons d t ih => simp [ih]

theorem sum_total_delta_bytes (l : List DiffAggregates) :
    l.sum.total_delta_bytes = (l.map (fun d => d.total_delta_bytes)).sum := by
  induction l with
  | nil => simp
  | cons d t ih => simp [ih]

/-- `merge_diff_aggregates` is summation in the aggregate monoid. -/
theorem merge_diff_aggregates_eq_sum (ds : List DiffAggregates) :
    merge_diff_aggregates ds = ds.sum := by
  cases ds with
  | nil => simp [merge_diff_aggregates]
  | cons d rest =>
    rw [DiffAggregates.parts_eq_iff]
    refine ⟨?_, funext fun lang => ?_, ?_, ?_⟩
    · rw [DiffCounts.fields_eq_iff]
      refine ⟨?_, ?_, ?_, ?_, ?_, ?_, ?_, ?_, ?_⟩ <;>
        simp [merge_diff_aggregates, sum_files_added, sum_files_removed, sum_files_modified,
          sum_folders_added, sum_folders_removed, sum_folders_modified,
          sum_assets_added, sum_assets_modified, sum_assets_removed]
    · simp [merge_diff_aggregates, sum_language_delta_bytes]
    · simp [merge_diff_aggregates, sum_unknown_delta_bytes]
    · simp [merge_diff_aggregates, sum_total_delta_bytes]

/-- Claim C6: `merge_diff_aggregates` is the element-wise sum over an arbitrary
list of aggregates — every count field and every per-language map entry (plus
the unknown and total deltas) is the sum across the list; the empty list yields
the all-zero aggregate; and the result is order-independent: permuting the
input, or regrouping it associatively (merging sublists, then merging the
results), yields the same aggregate. -/
theorem merge_diff_aggregates_elementwise_sum_order_independent :
    merge_diff_aggregates [] = 0
    ∧ (∀ ds : List DiffAggregates,
        (merge_diff_aggregates ds).counts.files_added
            = (ds.map (fun d => d.counts.files_added)).sum
        ∧ (merge_diff_aggregates ds).counts.files_removed
            = (ds.map (fun d => d.counts.files_removed)).sum
        ∧ (merge_diff_aggregates ds).counts.files_modified
            = (ds.map (fun d => d.counts.files_modified)).sum
        ∧ (merge_diff_aggregates ds).counts.folders_added
            = (ds.map (fun d => d.counts.folders_added)).sum
        ∧ (merge_diff_aggregates ds).counts.folders_removed
            = (ds.map (fun d => d.counts.folders_removed)).sum
        ∧ (merge_diff_aggregates ds).counts.folders_modified
            = (ds.map (fun d => d.counts.folders_modified)).sum
        ∧ (merge_diff_aggregates ds).counts.assets_added
            = (ds.map (fun d => d.counts.assets_added)).sum
        ∧ (merge_diff_aggregates ds).counts.assets_modified
            = (ds.map (fun d => d.counts.assets_modified)).sum
        ∧ (merge_diff_aggregates ds).counts.assets_removed
            = (ds.map (fun d => d.counts.assets_removed)).sum
        ∧ (∀ lang, (merge_diff_aggregates ds).language_delta_bytes lang
            = (ds.map (fun d => d.language_delta_bytes lang)).sum)
        ∧ (merge_diff_aggregates ds).unknown_delta_bytes
            = (ds.map (fun d => d.unknown_delta_bytes)).sum
        ∧ (merge_diff_aggregates ds).total_delta_bytes
            = (ds.map (fun d => d.total_delta_bytes)).sum)
    ∧ (∀ ds es : List DiffAggregates, ds.Perm es →
        merge_diff_aggregates ds = merge_diff_aggregates es)
    ∧ (∀ dss : List (List DiffAggregates),
        merge_diff_aggregates (dss.map merge_diff_aggregates)
          = merge_diff_aggregates dss.flatten) := by
  have hfun : merge_diff_aggregates = fun l : List DiffAggregates => l.sum :=
    funext merge_diff_aggregates_eq_sum
  refine ⟨rfl, fun ds => ?_, fun ds es h => ?_, fun dss => ?_⟩
  · rw [merge_diff_aggregates_eq_sum]
    exact ⟨sum_files_added ds, sum_files_removed ds, sum_files_modified ds,
      sum_folders_added ds, sum_folders_removed ds, sum_folders_modified ds,
      sum_assets_added ds, sum_assets_modified ds, sum_assets_removed ds,
      fun lang => sum_language_delta_bytes ds lang,
      sum_unknown_delta_bytes ds, sum_total_delta_bytes ds⟩
  · rw [merge_diff_aggregates_eq_sum, merge_diff_aggregates_eq_sum]
    exact h.sum_eq
  · rw [hfun]
    simp

/-- Witness for claim C6 at concrete inputs: merging two concrete aggregates is
invariant under swapping them (the permutation hypothesis discharged on the
explicit two-element lists). -/
theorem merge_diff_aggregates_order_independent_witness :
    ([({ counts := ⟨1, 0, 0, 0, 0, 0, 0, 0, 0⟩,
         language_delta_bytes := singleLang "Python" 3,
         unknown_delta_bytes := 0, total_delta_bytes := 3 } : DiffAggregates),
       (0 : DiffAggregates)].Perm
      [(0 : DiffAggregates),
       ({ counts := ⟨1, 0, 0, 0, 0, 0, 0, 0, 0⟩,
          language_delta_bytes := singleLang "Python" 3,
          unknown_delta_bytes := 0, total_delta_bytes := 3 } : DiffAggregates)])
    ∧ merge_diff_aggregates
        [({ counts := ⟨1, 0, 0, 0, 0, 0, 0, 0, 0⟩,
            language_delta_bytes := singleLang "Python" 3,
            unknown_delta_bytes := 0, total_delta_bytes := 3 } : DiffAggregates),
         (0 : DiffAggregates)]
      = merge_diff_aggregates
        [(0 : DiffAggregates),
         ({ counts := ⟨1, 0, 0, 0, 0, 0, 0, 0, 0⟩,
            language_delta_bytes := singleLang "Python" 3,
            unknown_delta_bytes := 0, total_delta_bytes := 3 } : DiffAggregates)] :=
  ⟨List.Perm.swap _ _ _,
   merge_diff_aggregates_elementwise_sum_order_independent.2.2.1 _ _ (List.Perm.swap _ _ _)⟩

/-! ## Balance between total, per-language and unknown deltas (claim C10) -/

theorem sum_map_addf {α : Type} (f g : α → Int) (l : List α) :
    (l.map (fun x => f x + g x)).sum = (l.map f).sum + (l.map g).sum := by
  induction l with
  | nil => simp
  | cons a t ih => simp [ih]; ring

theorem sum_map_zerof {α : Type} (l : List α) :
    (l.map (fun _ => (0 : Int))).sum = 0 := by
  induction l with
  | nil => simp
  | cons a t ih => simp [ih]

/-- Sum of the per-language map over the full language table. -/
def langSum (d : DiffAggregates) : Int :=
  (langNames.map d.language_delta_bytes).sum

theorem sum_map_singleLang_notmem {lang : String} (delta : Int) :
    ∀ (L : List String), lang ∉ L → (L.map (singleLang lang delta)).sum = 0 := by
  intro L
  induction L with
  | nil => simp
  | cons a t ih =>
    intro h
    have ha : a ≠ lang := fun he => h (he ▸ List.mem_cons_self a t)
    have ht : lang ∉ t := fun hm => h (List.mem_cons_of_mem a hm)
    simp [singleLang, ha, ih ht]

theorem sum_map_singleLang {lang : String} (delta : Int) :
    ∀ (L : List String), L.Nodup → lang ∈ L → (L.map (singleLang lang delta)).sum = delta := by
  intro L
  induction L with
  | nil => intro _ h; simp at h
  | cons a t ih =>
    intro hnd hmem
    rcases List.nodup_cons.mp hnd with ⟨hat, hndt⟩
    by_cases hal : a = lang
    · subst hal
      simp [singleLang, sum_map_singleLang_notmem delta t hat]
    · have ht : lang ∈ t := by
        rcases List.mem_cons.mp hmem with h | h
        · exact absurd h.symm hal
        · exact h
      simp [singleLang, hal, ih hndt ht]

theorem langSum_zero : langSum 0 = 0 := sum_map_zerof langNames

theorem langSum_add (a b : DiffAggregates) : langSum (a + b) = langSum a + langSum b :=
  sum_map_addf a.language_delta_bytes b.language_delta_bytes langNames

theorem langSum_listsum (l : List DiffAggregates) :
    langSum l.sum = (l.map langSum).sum := by
  induction l with
  | nil => simpa using langSum_zero
  | cons d t ih => simp [langSum_add, ih]

theorem sum_map_zero_ldb :
    (List.map (DiffAggregates.language_delta_bytes 0) langNames).sum = 0 :=
  sum_map_zerof langNames

/-- Signed-delta imbalance: what the total carries beyond the language and
unknown buckets. -/
def excessDelta (d : DiffAggregates) : Int :=
  d.total_delta_bytes - langSum d - d.unknown_delta_bytes

theorem excessDelta_zero : excessDelta 0 = 0 := by
  simp [excessDelta, langSum_zero]

theorem excessDelta_add (a b : DiffAggregates) :
    excessDelta (a + b) = excessDelta a + excessDelta b := by
  simp [excessDelta, langSum_add]; ring

theorem excessDelta_listsum (l : List DiffAggregates) :
    excessDelta l.sum = (l.map excessDelta).sum := by
  induction l with
  | nil => simpa using excessDelta_zero
  | cons d t ih => simp [excessDelta_add, ih]

theorem addedContrib_excess (m : FileMeta) : excessDelta (addedContrib m) = 0 := by
  unfold addedContrib excessDelta langSum
  cases hd : m.is_dir with
  | true => simp [sum_map_zerof, sum_map_zero_ldb]
  | false =>
    simp only [Bool.false_eq_true, if_false]
    cases hl : language_from_ext m.ext with
    | none => simp [sum_map_zerof]
    | some lang =>
      have hmem : lang ∈ langNames := language_from_ext_mem_langNames hl
      dsimp only
      rw [sum_map_singleLang m.size_bytes langNames langNames_nodup hmem]
      ring

theorem removedContrib_excess (m : FileMeta) : excessDelta (removedContrib m) = 0 := by
  unfold removedContrib excessDelta langSum
  cases hd : m.is_dir with
  | true => simp [sum_map_zerof, sum_map_zero_ldb]
  | false =>
    simp only [Bool.false_eq_true, if_false]
    cases hl : language_from_ext m.ext with
    | none => simp [sum_map_zerof]
    | some lang =>
      have hmem : lang ∈ langNames := language_from_ext_mem_langNames hl
      dsimp only
      rw [sum_map_singleLang (-m.size_bytes) langNames langNames_nodup hmem]
      ring

/-- Signed size delta of a type-flipped common entry: `+new size` if a
directory became a file, `-old size` if a file became a directory. -/
def flipDelta (p : FileMeta × FileMeta) : Int :=
  if p.1.is_dir then p.2.size_bytes else -p.1.size_bytes

theorem commonContrib_excess (p : FileMeta × FileMeta) :
    excessDelta (commonContrib p.1 p.2)
      = if p.1.is_dir ≠ p.2.is_dir then flipDelta p else 0 := by
  unfold commonContrib excessDelta langSum flipDelta
  by_cases hflip : p.1.is_dir ≠ p.2.is_dir
  · rw [if_pos hflip, if_pos hflip]
    cases hd : p.1.is_dir <;> simp [sum_map_zerof]
  · rw [if_neg hflip, if_neg hflip]
    cases hd : p.2.is_dir with
    | true =>
      simp only [if_pos]
      by_cases hmt : p.2.mtime_ns ≠ p.1.mtime_ns
      · rw [if_pos hmt]; simp [sum_map_zerof, sum_map_zero_ldb]
      · rw [if_neg hmt]; simp [langSum_zero, sum_map_zerof, sum_map_zero_ldb]
    | false =>
      simp only [Bool.false_eq_true, if_false]
      by_cases hch : p.2.size_bytes ≠ p.1.size_bytes ∨ p.2.mtime_ns ≠ p.1.mtime_ns
      · rw [if_pos hch]
        cases hl : language_from_ext p.2.ext with
        | none => simp [sum_map_zerof]
        | some lang =>
          have hmem : lang ∈ langNames := language_from_ext_mem_langNames hl
          dsimp only
          rw [sum_map_singleLang (p.2.size_bytes - p.1.size_bytes) langNames langNames_nodup hmem]
          ring
      · rw [if_neg hch]; simp [sum_map_zerof, sum_map_zero_ldb]

theorem compute_diff_excess (old : Option Snapshot) (new : Snapshot) :
    excessDelta (compute_diff old new)
      = ((commonPairs (oldEntriesOf old) new.entries).map
          (fun p => if p.1.is_dir ≠ p.2.is_dir then flipDelta p else 0)).sum := by
  rw [compute_diff_eq_sums, excessDelta_add, excessDelta_add,
    excessDelta_listsum, excessDelta_listsum, excessDelta_listsum,
    List.map_map, List.map_map, List.map_map]
  have hA : excessDelta ∘ addedContrib = fun _ : FileMeta => (0 : Int) :=
    funext addedContrib_excess
  have hR : excessDelta ∘ removedContrib = fun _ : FileMeta => (0 : Int) :=
    funext removedContrib_excess
  have hC : (excessDelta ∘ fun p : FileMeta × FileMeta => commonContrib p.1 p.2)
      = fun p => if p.1.is_dir ≠ p.2.is_dir then flipDelta p else 0 :=
    funext commonContrib_excess
  rw [hA, hR, hC, sum_map_zerof, sum_map_zerof]
  ring

theorem addedContrib_ldb_off (m : FileMeta) (l : String) (hl : l ∉ langNames) :
    (addedContrib m).language_delta_bytes l = 0 := by
  unfold addedContrib
  cases hd : m.is_dir with
  | true => rfl
  | false =>
    simp only [Bool.false_eq_true, if_false]
    cases hlang : language_from_ext m.ext with
    | none => rfl
    | some lang =>
      have : l ≠ lang := fun he => hl (he ▸ language_from_ext_mem_langNames hlang)
      simp [singleLang, this]

theorem removedContrib_ldb_off (m : FileMeta) (l : String) (hl : l ∉ langNames) :
    (removedContrib m).language_delta_bytes l = 0 := by
  unfold removedContrib
  cases hd : m.is_dir with
  | true => rfl
  | false =>
    simp only [Bool.false_eq_true, if_false]
    cases hlang : language_from_ext m.ext with
    | none => rfl
    | some lang =>
      have : l ≠ lang := fun he => hl (he ▸ language_from_ext_mem_langNames hlang)
      simp [singleLang, this]

theorem commonContrib_ldb_off (p : FileMeta × FileMeta) (l : String) (hl : l ∉ langNames) :
    (commonContrib p.1 p.2).language_delta_bytes l = 0 := by
  unfold commonContrib
  by_cases hflip : p.1.is_dir ≠ p.2.is_dir
  · rw [if_pos hflip]
    cases hd : p.1.is_dir <;> simp
  · rw [if_neg hflip]
    cases hd : p.2.is_dir with
    | true =>
      simp only [if_pos]
      by_cases hmt : p.2.mtime_ns ≠ p.1.mtime_ns
      · rw [if_pos hmt]; rfl
      · rw [if_neg hmt]; rfl
    | false =>
      simp only [Bool.false_eq_true, if_false]
      by_cases hch : p.2.size_bytes ≠ p.1.size_bytes ∨ p.2.mtime_ns ≠ p.1.mtime_ns
      · rw [if_pos hch]
        cases hlang : language_from_ext p.2.ext with
        | none => rfl
        | some lang =>
          have : l ≠ lang := fun he => hl (he ▸ language_from_ext_mem_langNames hlang)
          simp [singleLang, this]
      · rw [if_neg hch]; rfl

theorem compute_diff_ldb_off (old : Option Snapshot) (new : Snapshot) (l : String)
    (hl : l ∉ langNames) : (compute_diff old new).language_delta_bytes l = 0 := by
  rw [compute_diff_eq_sums]
  simp only [DiffAggregates.add_language_delta_bytes, sum_language_delta_bytes,
    List.map_map]
  have hA : ((fun d : DiffAggregates => d.language_delta_bytes l) ∘ addedContrib)
      = fun _ : FileMeta => (0 : Int) :=
    funext (fun m => addedContrib_ldb_off m l hl)
  have hR : ((fun d : DiffAggregates => d.language_delta_bytes l) ∘ removedContrib)
      = fun _ : FileMeta => (0 : Int) :=
    funext (fun m => removedContrib_ldb_off m l hl)
  have hC : ((fun d : DiffAggregates => d.language_delta_bytes l)
        ∘ fun p : FileMeta × FileMeta => commonContrib p.1 p.2)
      = fun _ : FileMeta × FileMeta => (0 : Int) :=
    funext (fun p => commonContrib_ldb_off p l hl)
  rw [hA, hR, hC, sum_map_zerof, sum_map_zerof, sum_map_zerof]
  simp

theorem sum_map_flip_ite (l : List (FileMeta × FileMeta)) :
    (l.map (fun p => if p.1.is_dir ≠ p.2.is_dir then flipDelta p else 0)).sum
      = ((l.filter (fun p => p.1.is_dir != p.2.is_dir)).map flipDelta).sum := by
  induction l with
  | nil => simp
  | cons a t ih =>
    by_cases h : a.1.is_dir ≠ a.2.is_dir
    · have hb : (a.1.is_dir != a.2.is_dir) = true := by simpa [bne_iff_ne] using h
      rw [List.map_cons, List.sum_cons, if_pos h, List.filter_cons, hb, if_pos rfl,
        List.map_cons, List.sum_cons, ih]
    · have he : a.1.is_dir = a.2.is_dir := not_ne_iff.mp h
      have hb : (a.1.is_dir != a.2.is_dir) = false := by simp [he]
      rw [List.map_cons, List.sum_cons, if_neg h, List.filter_cons, hb]
      simp only [Bool.false_eq_true, if_false]
      rw [zero_add, ih]

/-- Claim C10: when no common path's directory flag differs between the
snapshots, `total_delta_bytes` equals the sum of the per-language byte map
plus `unknown_delta_bytes`; in general a type-flipped common entry adds its
signed file-size delta (`+new size` for dir→file, `-old size` for file→dir)
to the total but to no language bucket and not to the unknown bucket, so the
balance equation shifts exactly by the flip deltas.  The language map
vanishes outside the fixed language table, so the `langNames` sum is the sum
of all values of the map. -/
theorem compute_diff_total_balance (old : Option Snapshot) (new : Snapshot) :
    ((∀ p ∈ commonPairs (oldEntriesOf old) new.entries, p.1.is_dir = p.2.is_dir) →
      (compute_diff old new).total_delta_bytes
        = (langNames.map ((compute_diff old new).language_delta_bytes)).sum
          + (compute_diff old new).unknown_delta_bytes)
    ∧ ((compute_diff old new).total_delta_bytes
        = (langNames.map ((compute_diff old new).language_delta_bytes)).sum
          + (compute_diff old new).unknown_delta_bytes
          + (((commonPairs (oldEntriesOf old) new.entries).filter
              (fun p => p.1.is_dir != p.2.is_dir)).map flipDelta).sum)
    ∧ (∀ l, l ∉ langNames → (compute_diff old new).language_delta_bytes l = 0) := by
  have hex := compute_diff_excess old new
  unfold excessDelta langSum at hex
  refine ⟨?_, ?_, fun l hl => compute_diff_ldb_off old new l hl⟩
  · intro hnoflip
    have hz : ((commonPairs (oldEntriesOf old) new.entries).map
        (fun p => if p.1.is_dir ≠ p.2.is_dir then flipDelta p else 0)).sum = 0 := by
      apply List.sum_eq_zero
      intro x hx
      rcases List.mem_map.mp hx with ⟨p, hp, hpx⟩
      rw [← hpx, if_neg (by simpa using hnoflip p hp)]
    rw [hz] at hex
    omega
  · rw [sum_map_flip_ite] at hex
    omega

/-- Witness for claim C10: at a concrete snapshot pair with no common entries
the no-flip hypothesis is discharged and the balance equation holds. -/
theorem compute_diff_total_balance_witness :
    (∀ p ∈ commonPairs (oldEntriesOf none)
        (Snapshot.mk 1 "r" "t" [("a.py", FileMeta.mk "a.py" false 10 5 "py")]).entries,
        p.1.is_dir = p.2.is_dir)
    ∧ (compute_diff none
          (Snapshot.mk 1 "r" "t" [("a.py", FileMeta.mk "a.py" false 10 5 "py")])).total_delta_bytes
        = (langNames.map ((compute_diff none
            (Snapshot.mk 1 "r" "t"
              [("a.py", FileMeta.mk "a.py" false 10 5 "py")])).language_delta_bytes)).sum
          + (compute_diff none
              (Snapshot.mk 1 "r" "t"
                [("a.py", FileMeta.mk "a.py" false 10 5 "py")])).unknown_delta_bytes :=
  ⟨by decide,
   (compute_diff_total_balance none
      (Snapshot.mk 1 "r" "t" [("a.py", FileMeta.mk "a.py" false 10 5 "py")])).1 (by decide)⟩

/-! ## Removing one common key from both snapshots (claims C4 and C5)

`compute_diff` splits as the diff of the snapshots without a common
path, plus that path's own `commonContrib`. -/

/-- Drop the entry with key `k` (the dict without that key). -/
def removeKey (l : List (String × FileMeta)) (k : String) : List (String × FileMeta) :=
  l.filter (fun e => decide (e.1 ≠ k))

theorem lookupKey_nil (k : String) : lookupKey [] k = none := rfl

theorem lookupKey_cons_pos (e : String × FileMeta) (t : List (String × FileMeta)) (k : String)
    (h : e.1 = k) : lookupKey (e :: t) k = some e.2 := by
  unfold lookupKey
  rw [List.find?_cons_of_pos t (by simpa using h)]
  rfl

theorem lookupKey_cons_neg (e : String × FileMeta) (t : List (String × FileMeta)) (k : String)
    (h : e.1 ≠ k) : lookupKey (e :: t) k = lookupKey t k := by
  unfold lookupKey
  rw [List.find?_cons_of_neg t (by simpa using h)]

theorem lookupKey_removeKey_ne (l : List (String × FileMeta)) (k q : String) (h : q ≠ k) :
    lookupKey (removeKey l k) q = lookupKey l q := by
  induction l with
  | nil => rfl
  | cons e t ih =>
    unfold removeKey at ih ⊢
    by_cases hek : e.1 = k
    · rw [List.filter_cons, if_neg (by simpa using hek), ih,
        lookupKey_cons_neg e t q (fun heq => h (heq ▸ hek))]
    · rw [List.filter_cons, if_pos (by simpa using hek)]
      by_cases heq : e.1 = q
      · rw [lookupKey_cons_pos _ _ q heq, lookupKey_cons_pos e t q heq]
      · rw [lookupKey_cons_neg _ _ q heq, lookupKey_cons_neg e t q heq, ih]

theorem containsKey_removeKey_ne (l : List (String × FileMeta)) (k q : String) (h : q ≠ k) :
    containsKey (removeKey l k) q = containsKey l q := by
  unfold containsKey
  rw [lookupKey_removeKey_ne l k q h]

theorem lookupKey_split (l : List (String × FileMeta)) (k : String) (v : FileMeta)
    (h : lookupKey l k = some v) :
    ∃ l1 l2, l = l1 ++ (k, v) :: l2 ∧ ∀ e ∈ l1, e.1 ≠ k := by
  induction l with
  | nil => simp [lookupKey] at h
  | cons e t ih =>
    by_cases hek : e.1 = k
    · rw [lookupKey_cons_pos e t k hek] at h
      refine ⟨[], t, ?_, by simp⟩
      obtain ⟨e1, e2⟩ := e
      simp only at hek
      cases hek
      cases Option.some.inj h
      rfl
    · rw [lookupKey_cons_neg e t k hek] at h
      rcases ih h with ⟨l1, l2, heq, hl1⟩
      refine ⟨e :: l1, l2, by rw [heq]; rfl, ?_⟩
      intro x hx
      rcases List.mem_cons.mp hx with hx | hx
      · exact hx ▸ hek
      · exact hl1 x hx

theorem removeKey_of_split (l1 l2 : List (String × FileMeta)) (k : String) (v : FileMeta)
    (h1 : ∀ e ∈ l1, e.1 ≠ k) (h2 : ∀ e ∈ l2, e.1 ≠ k) :
    removeKey (l1 ++ (k, v) :: l2) k = l1 ++ l2 := by
  unfold removeKey
  rw [List.filter_append, List.filter_cons]
  rw [if_neg (by simp)]
  rw [List.filter_eq_self.mpr (fun e he => by simpa using h1 e he),
    List.filter_eq_self.mpr (fun e he => by simpa using h2 e he)]

/-- Master decomposition: removing one common path from both snapshots
removes exactly that path's `commonContrib` from the diff. -/
theorem compute_diff_removeKey (old new : Snapshot) (k : String) (om nm : FileMeta)
    (hndn : (new.entries.map (fun e => e.1)).Nodup)
    (h1 : lookupKey old.entries k = some om)
    (h2 : lookupKey new.entries k = some nm) :
    compute_diff (some old) new
      = compute_diff (some { old with entries := removeKey old.entries k })
          { new with entries := removeKey new.entries k }
        + commonContrib om nm := by
  have hco : containsKey old.entries k = true := by
    unfold containsKey; rw [h1]; rfl
  have hcn : containsKey new.entries k = true := by
    unfold containsKey; rw [h2]; rfl
  -- split the new entry list at the common key
  rcases lookupKey_split new.entries k nm h2 with ⟨n1, n2, hsplit, hn1⟩
  have hn2 : ∀ e ∈ n2, e.1 ≠ k := by
    intro e he hek
    have : ((n1 ++ (k, nm) :: n2).map (fun e => e.1)).Nodup := hsplit ▸ hndn
    rw [List.map_append, List.map_cons] at this
    have hk2 : (k :: n2.map (fun e => e.1)).Nodup := this.of_append_right
    have : k ∉ n2.map (fun e => e.1) := (List.nodup_cons.mp hk2).1
    exact this (hek ▸ List.mem_map_of_mem (fun e => e.1) he)
  -- the added lists agree
  have hadd : addedMetas (removeKey old.entries k) (removeKey new.entries k)
      = addedMetas old.entries new.entries := by
    unfold addedMetas removeKey
    rw [List.filter_filter]
    have hpred : (fun e : String × FileMeta =>
        (!containsKey (List.filter (fun e => decide (e.1 ≠ k)) old.entries) e.1)
          && decide (e.1 ≠ k))
        = fun e => !containsKey old.entries e.1 := by
      funext e
      by_cases hek : e.1 = k
      · rw [hek]
        simp [hco]
      · have hc := containsKey_removeKey_ne old.entries k e.1 hek
        unfold removeKey at hc
        simp only [ne_eq, decide_not] at hc ⊢
        rw [hc]
        simp [hek]
    rw [hpred]
  -- the removed lists agree
  have hrem : removedMetas (removeKey old.entries k) (removeKey new.entries k)
      = removedMetas old.entries new.entries := by
    unfold removedMetas removeKey
    rw [List.filter_filter]
    have hpred : (fun e : String × FileMeta =>
        (!containsKey (List.filter (fun e => decide (e.1 ≠ k)) new.entries) e.1)
          && decide (e.1 ≠ k))
        = fun e => !containsKey new.entries e.1 := by
      funext e
      by_cases hek : e.1 = k
      · rw [hek]
        simp [hcn]
      · have hc := containsKey_removeKey_ne new.entries k e.1 hek
        unfold removeKey at hc
        simp only [ne_eq, decide_not] at hc ⊢
        rw [hc]
        simp [hek]
    rw [hpred]
  -- the common pair lists split at (om, nm)
  have hF : ∀ e : String × FileMeta, e.1 ≠ k →
      ((lookupKey (removeKey old.entries k) e.1).map (fun om2 => (om2, e.2)))
        = ((lookupKey old.entries e.1).map (fun om2 => (om2, e.2))) := by
    intro e he
    rw [lookupKey_removeKey_ne old.entries k e.1 he]
  have hrmnew : removeKey new.entries k = n1 ++ n2 := by
    rw [hsplit]; exact removeKey_of_split n1 n2 k nm hn1 hn2
  have hcommon1 : commonPairs old.entries new.entries
      = n1.filterMap (fun e => (lookupKey old.entries e.1).map (fun om2 => (om2, e.2)))
        ++ (om, nm)
          :: n2.filterMap (fun e => (lookupKey old.entries e.1).map (fun om2 => (om2, e.2))) := by
    unfold commonPairs
    rw [hsplit, List.filterMap_append, List.filterMap_cons]
    simp only [h1]
    rfl
  have hcommon2 : commonPairs (removeKey old.entries k) (removeKey new.entries k)
      = n1.filterMap (fun e => (lookupKey old.entries e.1).map (fun om2 => (om2, e.2)))
        ++ n2.filterMap (fun e => (lookupKey old.entries e.1).map (fun om2 => (om2, e.2))) := by
    unfold commonPairs
    rw [hrmnew, List.filterMap_append,
      List.filterMap_congr (fun e he => hF e (hn1 e he)),
      List.filterMap_congr (fun e he => hF e (hn2 e he))]
  -- assemble
  rw [compute_diff_eq_sums, compute_diff_eq_sums]
  simp only [oldEntriesOf]
  rw [hadd, hrem, hcommon1, hcommon2]
  rw [List.map_append, List.map_append, List.map_cons, List.sum_append, List.sum_append,
    List.sum_cons]
  abel

/-- Claim C4: a path common to both snapshots with unchanged directory flag
and `is_dir = false` contributes to `compute_diff` exactly its
`commonContrib`, which counts one file-modified if and only if its size or
its modification time differs; the contribution carries delta
`new size - old size` (zero when only the mtime changed — still counted,
with the zero delta carried in the total and in the language or unknown
bucket chosen by the new extension), and is the all-zero aggregate when
neither size nor mtime changed. -/
theorem compute_diff_common_file_modified (old new : Snapshot) (k : String) (om nm : FileMeta)
    (hndo : (old.entries.map (fun e => e.1)).Nodup)
    (hndn : (new.entries.map (fun e => e.1)).Nodup)
    (h1 : lookupKey old.entries k = some om)
    (h2 : lookupKey new.entries k = some nm)
    (ho : om.is_dir = false) (hn : nm.is_dir = false) :
    (compute_diff (some old) new
      = compute_diff (some { old with entries := removeKey old.entries k })
          { new with entries := removeKey new.entries k }
        + commonContrib om nm)
    ∧ ((nm.size_bytes ≠ om.size_bytes ∨ nm.mtime_ns ≠ om.mtime_ns) →
        commonContrib om nm
          = (match language_from_ext nm.ext with
             | none =>
               { counts := { (0 : DiffCounts) with files_modified := 1, assets_modified := 1 },
                 language_delta_bytes := fun _ => 0,
                 unknown_delta_bytes := nm.size_bytes - om.size_bytes,
                 total_delta_bytes := nm.size_bytes - om.size_bytes }
             | some lang =>
               { counts := { (0 : DiffCounts) with files_modified := 1 },
                 language_delta_bytes := singleLang lang (nm.size_bytes - om.size_bytes),
                 unknown_delta_bytes := 0,
                 total_delta_bytes := nm.size_bytes - om.size_bytes }))
    ∧ (nm.size_bytes = om.size_bytes → nm.mtime_ns = om.mtime_ns →
        commonContrib om nm = 0) := by
  refine ⟨compute_diff_removeKey old new k om nm hndn h1 h2, ?_, ?_⟩
  · intro hch
    unfold commonContrib
    rw [ho, hn]
    rw [if_neg (fun h => h rfl)]
    simp only [Bool.false_eq_true, if_false]
    rw [if_pos hch]
  · intro hsz hmt
    unfold commonContrib
    rw [ho, hn]
    rw [if_neg (fun h => h rfl)]
    simp only [Bool.false_eq_true, if_false]
    rw [if_neg (by simp [hsz, hmt])]

def snapOldPy : Snapshot :=
  Snapshot.mk 1 "/r" "t0" [("a.py", FileMeta.mk "a.py" false 10 100 "py")]

def snapNewPyMtime : Snapshot :=
  Snapshot.mk 1 "/r" "t1" [("a.py", FileMeta.mk "a.py" false 10 200 "py")]

/-- Witness for claim C4: a concrete common file whose mtime changed but
whose size did not — it still counts as modified, with delta `0` classified
into the Python bucket. -/
theorem compute_diff_common_file_modified_witness :
    (lookupKey snapOldPy.entries "a.py" = some (FileMeta.mk "a.py" false 10 100 "py")
      ∧ lookupKey snapNewPyMtime.entries "a.py" = some (FileMeta.mk "a.py" false 10 200 "py")
      ∧ ((FileMeta.mk "a.py" false 10 200 "py").size_bytes
            ≠ (FileMeta.mk "a.py" false 10 100 "py").size_bytes
        ∨ (FileMeta.mk "a.py" false 10 200 "py").mtime_ns
            ≠ (FileMeta.mk "a.py" false 10 100 "py").mtime_ns))
    ∧ commonContrib (FileMeta.mk "a.py" false 10 100 "py") (FileMeta.mk "a.py" false 10 200 "py")
        = (match language_from_ext (FileMeta.mk "a.py" false 10 200 "py").ext with
           | none =>
             { counts := { (0 : DiffCounts) with files_modified := 1, assets_modified := 1 },
               language_delta_bytes := fun _ => 0,
               unknown_delta_bytes := (FileMeta.mk "a.py" false 10 200 "py").size_bytes
                 - (FileMeta.mk "a.py" false 10 100 "py").size_bytes,
               total_delta_bytes := (FileMeta.mk "a.py" false 10 200 "py").size_bytes
                 - (FileMeta.mk "a.py" false 10 100 "py").size_bytes }
           | some lang =>
             { counts := { (0 : DiffCounts) with files_modified := 1 },
               language_delta_bytes := singleLang lang
                 ((FileMeta.mk "a.py" false 10 200 "py").size_bytes
                   - (FileMeta.mk "a.py" false 10 100 "py").size_bytes),
               unknown_delta_bytes := 0,
               total_delta_bytes := (FileMeta.mk "a.py" false 10 200 "py").size_bytes
                 - (FileMeta.mk "a.py" false 10 100 "py").size_bytes }) :=
  ⟨⟨by decide, by decide, by decide⟩,
   (compute_diff_common_file_modified snapOldPy snapNewPyMtime "a.py"
      (FileMeta.mk "a.py" false 10 100 "py") (FileMeta.mk "a.py" false 10 200 "py")
      (by decide) (by decide) (by decide) (by decide) (by decide) (by decide)).2.1
    (by decide)⟩

/-- Claim C5: a path common to both snapshots whose directory flag flips
contributes exactly one removal of the old type plus one addition of the new
type and nothing else: no modified counter, no other count, no language or
unknown bucket; the only delta it contributes is `+new size` (dir→file) or
`-old size` (file→dir), carried in the total. -/
theorem compute_diff_common_type_flip (old new : Snapshot) (k : String) (om nm : FileMeta)
    (hndo : (old.entries.map (fun e => e.1)).Nodup)
    (hndn : (new.entries.map (fun e => e.1)).Nodup)
    (h1 : lookupKey old.entries k = some om)
    (h2 : lookupKey new.entries k = some nm)
    (hflip : om.is_dir ≠ nm.is_dir) :
    (compute_diff (some old) new
      = compute_diff (some { old with entries := removeKey old.entries k })
          { new with entries := removeKey new.entries k }
        + commonContrib om nm)
    ∧ commonContrib om nm
        = (if om.is_dir then
            { counts := { (0 : DiffCounts) with folders_removed := 1, files_added := 1 },
              language_delta_bytes := fun _ => 0,
              unknown_delta_bytes := 0,
              total_delta_bytes := nm.size_bytes }
          else
            { counts := { (0 : DiffCounts) with files_removed := 1, folders_added := 1 },
              language_delta_bytes := fun _ => 0,
              unknown_delta_bytes := 0,
              total_delta_bytes := -om.size_bytes }) := by
  refine ⟨compute_diff_removeKey old new k om nm hndn h1 h2, ?_⟩
  unfold commonContrib
  rw [if_pos hflip]

def snapOldDir : Snapshot :=
  Snapshot.mk 1 "/r" "t0" [("x", FileMeta.mk "x" true 0 5 "")]

def snapNewFile : Snapshot :=
  Snapshot.mk 1 "/r" "t1" [("x", FileMeta.mk "x" false 7 6 "py")]

/-- Witness for claim C5: a concrete directory→file flip counts one folder
removed plus one file added, and contributes `+new size` to the total only. -/
theorem compute_diff_common_type_flip_witness :
    (lookupKey snapOldDir.entries "x" = some (FileMeta.mk "x" true 0 5 "")
      ∧ lookupKey snapNewFile.entries "x" = some (FileMeta.mk "x" false 7 6 "py")
      ∧ (FileMeta.mk "x" true 0 5 "").is_dir ≠ (FileMeta.mk "x" false 7 6 "py").is_dir)
    ∧ commonContrib (FileMeta.mk "x" true 0 5 "") (FileMeta.mk "x" false 7 6 "py")
        = (if (FileMeta.mk "x" true 0 5 "").is_dir then
            { counts := { (0 : DiffCounts) with folders_removed := 1, files_added := 1 },
              language_delta_bytes := fun _ => 0,
              unknown_delta_bytes := 0,
              total_delta_bytes := (FileMeta.mk "x" false 7 6 "py").size_bytes }
          else
            { counts := { (0 : DiffCounts) with files_removed := 1, folders_added := 1 },
              language_delta_bytes := fun _ => 0,
              unknown_delta_bytes := 0,
              total_delta_bytes := -(FileMeta.mk "x" true 0 5 "").size_bytes }) :=
  ⟨⟨by decide, by decide, by decide⟩,
   (compute_diff_common_type_flip snapOldDir snapNewFile "x"
      (FileMeta.mk "x" true 0 5 "") (FileMeta.mk "x" false 7 6 "py")
      (by decide) (by decide) (by decide) (by decide) (by decide)).2⟩

/-! ## Run orchestration (`run_once` from `run_cycle.py`, claims C8 and C9)

One cycle is embedded over an explicit state: the per-project snapshot
store (`load_snapshot`/`save_snapshot` keyed by the per-watch state-file
path) and the first-run marker (`known_projects.json` existing or not).
Each discovered project arrives as a `ProjectInput` holding its
anonymized id, state-file path, resolved root, and the freshly scanned
snapshot.  The per-watch state paths are distinct per project (the hash
of the resolved path); this is the `Nodup` hypothesis. -/

/-- `has_changes` from `run_once` (inclusion test for projects with a
prior snapshot). -/
def has_changes (d : DiffAggregates) : Bool :=
  decide (0 < d.counts.files_added) || decide (0 < d.counts.files_modified)
    || decide (0 < d.counts.files_removed) || decide (d.total_delta_bytes ≠ 0)

/-- `has_files` from `run_once` (inclusion test for newly discovered
projects diffed against the empty snapshot). -/
def has_files (d : DiffAggregates) : Bool :=
  decide (0 < d.counts.files_added) || decide (d.total_delta_bytes ≠ 0)

/-- The `empty_snapshot` literal built by `run_once` for a newly
discovered project. -/
def emptySnapshotFor (root : String) : Snapshot :=
  Snapshot.mk 1 root "" []

structure ProjectInput where
  projId : String
  statePath : String
  root : String
  snap : Snapshot

/-- Mutable state threaded through the per-project loop of `run_once`. -/
structure CycleAcc where
  diffs : List DiffAggregates
  projectIds : List String
  firstScan : List String
  store : String → Option Snapshot

/-- `save_snapshot` on the store: overwrite the file at `k`. -/
def storeUpdate (σ : String → Option Snapshot) (k : String) (v : Snapshot) :
    String → Option Snapshot :=
  fun q => if q = k then some v else σ q

/-- One iteration of the per-project loop of `run_once`: load the prior
snapshot, diff and maybe include, then persist the fresh snapshot
unconditionally. -/
def processProject (isFirstRun : Bool) (acc : CycleAcc) (p : ProjectInput) : CycleAcc :=
  let prev := acc.store p.statePath
  let acc1 :=
    match prev with
    | some prevSnap =>
      let d := compute_diff (some prevSnap) p.snap
      if has_changes d then
        { acc with diffs := acc.diffs ++ [d], projectIds := acc.projectIds ++ [p.projId] }
      else acc
    | none =>
      if isFirstRun then
        { acc with firstScan := acc.firstScan ++ [p.root] }
      else
        let d := compute_diff (some (emptySnapshotFor p.root)) p.snap
        if has_files d then
          { acc with diffs := acc.diffs ++ [d], projectIds := acc.projectIds ++ [p.projId] }
        else acc
  { acc1 with store := storeUpdate acc1.store p.statePath p.snap }

/-- The outcome of one cycle: the merged event payload (absent when no
qualifying diff), the qualifying diff list, ids with activity, baselined
roots, the snapshot store after all saves, and the first-run marker. -/
structure RunOutcome where
  eventDiff : Option DiffAggregates
  diffs : List DiffAggregates
  projectIds : List String
  firstScan : List String
  store : String → Option Snapshot
  marker : Bool

/-- `run_once` from `run_cycle.py`: `marker` is true iff the first-run
marker file exists at cycle start; after the loop the marker is written
(once) if this was the first run; the event is absent iff no diff
qualified, else the merged aggregate. -/
def run_once (marker : Bool) (store : String → Option Snapshot)
    (projects : List ProjectInput) : RunOutcome :=
  let isFirstRun := !marker
  let acc := projects.foldl (processProject isFirstRun) (CycleAcc.mk [] [] [] store)
  { eventDiff := if acc.diffs.isEmpty then none else some (merge_diff_aggregates acc.diffs),
    diffs := acc.diffs,
    projectIds := acc.projectIds,
    firstScan := acc.firstScan,
    store := acc.store,
    marker := if isFirstRun then true else marker }

/-- What one project contributes to the qualifying-diff list, as a
function of the prior-snapshot view `σ`. -/
def projContrib (fr : Bool) (σ : String → Option Snapshot) (p : ProjectInput) :
    Option DiffAggregates :=
  match σ p.statePath with
  | some prev =>
    let d := compute_diff (some prev) p.snap
    if has_changes d then some d else none
  | none =>
    if fr then none
    else
      let d := compute_diff (some (emptySnapshotFor p.root)) p.snap
      if has_files d then some d else none

theorem projContrib_congr (fr : Bool) (σ τ : String → Option Snapshot) (p : ProjectInput)
    (h : σ p.statePath = τ p.statePath) : projContrib fr σ p = projContrib fr τ p := by
  unfold projContrib
  rw [h]

theorem processProject_spec (fr : Bool) (acc : CycleAcc) (p : ProjectInput) :
    (processProject fr acc p).store = storeUpdate acc.store p.statePath p.snap
    ∧ (processProject fr acc p).diffs = acc.diffs ++ (projContrib fr acc.store p).toList
    ∧ (processProject fr acc p).projectIds
        = acc.projectIds ++ ((projContrib fr acc.store p).map (fun _ => p.projId)).toList
    ∧ (processProject fr acc p).firstScan
        = acc.firstScan
          ++ (if fr = true ∧ acc.store p.statePath = none then [p.root] else []) := by
  unfold processProject projContrib
  rcases hprev : acc.store p.statePath with _ | prev
  · cases fr with
    | true => simp
    | false =>
      by_cases hf : has_files (compute_diff (some (emptySnapshotFor p.root)) p.snap) = true
      · simp [hf]
      · rw [Bool.not_eq_true] at hf
        simp [hf]
  · by_cases hc : has_changes (compute_diff (some prev) p.snap) = true
    · simp [hc]
    · rw [Bool.not_eq_true] at hc
      simp [hc]

theorem foldl_process_store_notmem (fr : Bool) :
    ∀ (ps : List ProjectInput) (acc : CycleAcc) (q : String),
      q ∉ ps.map (fun p => p.statePath) →
      (ps.foldl (processProject fr) acc).store q = acc.store q := by
  intro ps
  induction ps with
  | nil => intro acc q _; rfl
  | cons p t ih =>
    intro acc q hq
    rw [List.map_cons, List.mem_cons] at hq
    push_neg at hq
    rw [List.foldl_cons, ih _ q hq.2, (processProject_spec fr acc p).1]
    unfold storeUpdate
    rw [if_neg hq.1]

theorem foldl_process_spec (fr : Bool) :
    ∀ (ps : List ProjectInput) (acc : CycleAcc) (σ : String → Option Snapshot),
      (ps.map (fun p => p.statePath)).Nodup →
      (∀ p ∈ ps, acc.store p.statePath = σ p.statePath) →
      (ps.foldl (processProject fr) acc).diffs
          = acc.diffs ++ ps.filterMap (projContrib fr σ)
        ∧ (ps.foldl (processProject fr) acc).projectIds
          = acc.projectIds
            ++ ps.filterMap (fun p => (projContrib fr σ p).map (fun _ => p.projId))
        ∧ (ps.foldl (processProject fr) acc).firstScan
          = acc.firstScan
            ++ (if fr = true then
                  (ps.filter (fun p => (σ p.statePath).isNone)).map (fun p => p.root)
                else [])
        ∧ (∀ p ∈ ps, (ps.foldl (processProject fr) acc).store p.statePath = some p.snap) := by
  intro ps
  induction ps with
  | nil =>
    intro acc σ _ _
    refine ⟨by simp, by simp, ?_, by simp⟩
    cases fr <;> simp
  | cons p t ih =>
    intro acc σ hnd hσ
    rw [List.map_cons, List.nodup_cons] at hnd
    have hhead : acc.store p.statePath = σ p.statePath := hσ p (List.mem_cons_self p t)
    have hspec := processProject_spec fr acc p
    set acc1 := processProject fr acc p with hacc1
    have hstore1 : ∀ q ∈ t, acc1.store q.statePath = σ q.statePath := by
      intro q hq
      rw [hspec.1]
      unfold storeUpdate
      have hne : q.statePath ≠ p.statePath := by
        intro he
        exact hnd.1 (he ▸ List.mem_map_of_mem (fun p => p.statePath) hq)
      rw [if_neg hne]
      exact hσ q (List.mem_cons_of_mem p hq)
    have iht := ih acc1 σ hnd.2 hstore1
    have hcontrib : projContrib fr acc.store p = projContrib fr σ p :=
      projContrib_congr fr acc.store σ p hhead
    refine ⟨?_, ?_, ?_, ?_⟩
    · rw [List.foldl_cons, iht.1, hspec.2.1, hcontrib, List.filterMap_cons]
      rcases projContrib fr σ p with _ | d <;> simp
    · rw [List.foldl_cons, iht.2.1, hspec.2.2.1, hcontrib, List.filterMap_cons]
      rcases projContrib fr σ p with _ | d <;> simp
    · rw [List.foldl_cons, iht.2.2.1, hspec.2.2.2, hhead]
      cases fr with
      | false => simp
      | true =>
        rw [List.filter_cons]
        rcases hps : σ p.statePath with _ | prev
        · simp [hps, List.append_assoc]
        · simp [hps, List.append_assoc]
    · intro q hq
      rcases List.mem_cons.mp hq with hq | hq
      · subst hq
        rw [List.foldl_cons,
          foldl_process_store_notmem fr t acc1 q.statePath (by exact hnd.1),
          hspec.1]
        unfold storeUpdate
        rw [if_pos rfl]
      · exact (iht.2.2.2) q hq

theorem removedMetas_nil_left (ne : List (String × FileMeta)) : removedMetas [] ne = [] := rfl

theorem commonPairs_nil_left (ne : List (String × FileMeta)) : commonPairs [] ne = [] := by
  unfold commonPairs
  induction ne with
  | nil => rfl
  | cons e t ih => rw [List.filterMap_cons]; exact ih

theorem addedContrib_counts_files_removed (m : FileMeta) :
    (addedContrib m).counts.files_removed = 0 := by
  unfold addedContrib
  by_cases hd : m.is_dir = true
  · simp [hd]
  · rw [Bool.not_eq_true] at hd
    cases hl : language_from_ext m.ext <;> simp [hd, hl]

theorem addedContrib_counts_files_modified (m : FileMeta) :
    (addedContrib m).counts.files_modified = 0 := by
  unfold addedContrib
  by_cases hd : m.is_dir = true
  · simp [hd]
  · rw [Bool.not_eq_true] at hd
    cases hl : language_from_ext m.ext <;> simp [hd, hl]

theorem compute_diff_empty_old_counts (root : String) (snap : Snapshot) :
    (compute_diff (some (emptySnapshotFor root)) snap).counts.files_removed = 0
    ∧ (compute_diff (some (emptySnapshotFor root)) snap).counts.files_modified = 0 := by
  rw [compute_diff_eq_sums]
  have he : oldEntriesOf (some (emptySnapshotFor root)) = [] := rfl
  rw [he, removedMetas_nil_left, commonPairs_nil_left]
  simp only [List.map_nil, List.sum_nil, add_zero]
  constructor
  · rw [sum_files_removed, List.map_map]
    apply List.sum_eq_zero
    intro x hx
    rcases List.mem_map.mp hx with ⟨m, _, hmx⟩
    rw [← hmx]
    exact addedContrib_counts_files_removed m
  · rw [sum_files_modified, List.map_map]
    apply List.sum_eq_zero
    intro x hx
    rcases List.mem_map.mp hx with ⟨m, _, hmx⟩
    rw [← hmx]
    exact addedContrib_counts_files_modified m

/-- For a diff against the empty snapshot the two inclusion tests of
`run_once` coincide: nothing was removed or modified, so
`has_files = has_changes`. -/
theorem has_files_eq_has_changes_empty_old (root : String) (snap : Snapshot) :
    has_files (compute_diff (some (emptySnapshotFor root)) snap)
      = has_changes (compute_diff (some (emptySnapshotFor root)) snap) := by
  have h := compute_diff_empty_old_counts root snap
  unfold has_files has_changes
  rw [h.1, h.2]
  simp

theorem projContrib_false_eq (σ : String → Option Snapshot) (q : ProjectInput) :
    projContrib false σ q
      = (if has_changes (compute_diff
            (some ((σ q.statePath).getD (emptySnapshotFor q.root))) q.snap) = true
         then some (compute_diff
            (some ((σ q.statePath).getD (emptySnapshotFor q.root))) q.snap)
         else none) := by
  unfold projContrib
  rcases h : σ q.statePath with _ | prev
  · rw [Option.getD_none]
    rw [if_neg (by simp)]
    dsimp only
    rw [has_files_eq_has_changes_empty_old]
  · rfl

/-- Claim C8: on a first-ever cycle (marker absent) in which no project has a
prior snapshot, `run_once` emits no activity event regardless of the scanned
contents, records every project as a baseline, persists every project's fresh
snapshot, and sets the first-run marker; a cycle started with the marker set
never clears it. -/
theorem run_once_first_cycle (store : String → Option Snapshot) (projects : List ProjectInput)
    (hnd : (projects.map (fun p => p.statePath)).Nodup)
    (h0 : ∀ p ∈ projects, store p.statePath = none) :
    (run_once false store projects).eventDiff = none
    ∧ (run_once false store projects).diffs = []
    ∧ (run_once false store projects).firstScan = projects.map (fun p => p.root)
    ∧ (∀ p ∈ projects, (run_once false store projects).store p.statePath = some p.snap)
    ∧ (run_once false store projects).marker = true
    ∧ (∀ (m : Bool) (σ : String → Option Snapshot) (ps : List ProjectInput),
        m = true → (run_once m σ ps).marker = true) := by
  have hσ : ∀ p ∈ projects, (CycleAcc.mk [] [] [] store).store p.statePath = store p.statePath :=
    fun p _ => rfl
  have hspec := foldl_process_spec true projects (CycleAcc.mk [] [] [] store) store hnd hσ
  have hdiffs : (run_once false store projects).diffs = [] := by
    show (projects.foldl (processProject true) (CycleAcc.mk [] [] [] store)).diffs = []
    rw [hspec.1, List.nil_append]
    rw [List.filterMap_eq_nil_iff]
    intro p hp
    unfold projContrib
    rw [h0 p hp]
    rfl
  refine ⟨?_, hdiffs, ?_, ?_, rfl, ?_⟩
  · show (if (projects.foldl (processProject true)
        (CycleAcc.mk [] [] [] store)).diffs.isEmpty then none
      else some (merge_diff_aggregates _)) = none
    have : (projects.foldl (processProject true) (CycleAcc.mk [] [] [] store)).diffs = [] :=
      hdiffs
    rw [this]
    rfl
  · show (projects.foldl (processProject true) (CycleAcc.mk [] [] [] store)).firstScan = _
    rw [hspec.2.2.1, List.nil_append, if_pos rfl]
    rw [List.filter_eq_self.mpr (fun p hp => by rw [h0 p hp]; rfl)]
  · intro p hp
    exact hspec.2.2.2 p hp
  · intro m σ ps hm
    subst hm
    rfl

/-- Witness for claim C8 at a concrete one-project cycle with an empty
store: the event is absent and the marker is set. -/
theorem run_once_first_cycle_witness :
    (([ProjectInput.mk "p1" "sp1" "/r" snapNewFile].map (fun p => p.statePath)).Nodup
      ∧ ∀ p ∈ [ProjectInput.mk "p1" "sp1" "/r" snapNewFile],
          (fun _ : String => (none : Option Snapshot)) p.statePath = none)
    ∧ (run_once false (fun _ => none) [ProjectInput.mk "p1" "sp1" "/r" snapNewFile]).eventDiff
        = none
    ∧ (run_once false (fun _ => none) [ProjectInput.mk "p1" "sp1" "/r" snapNewFile]).marker
        = true :=
  ⟨⟨by decide, fun p _ => rfl⟩,
   (run_once_first_cycle (fun _ => none) [ProjectInput.mk "p1" "sp1" "/r" snapNewFile]
      (by decide) (fun p _ => rfl)).1,
   (run_once_first_cycle (fun _ => none) [ProjectInput.mk "p1" "sp1" "/r" snapNewFile]
      (by decide) (fun p _ => rfl)).2.2.2.2.1⟩

/-- Claim C9: on a cycle after the baseline transition (marker set), a
project with no prior snapshot is diffed against the empty snapshot (its
whole content counting as added), every project's diff — newly discovered or
not — is included in the run exactly when it has an added, modified or
removed file or a nonzero total byte delta (an all-zero diff is discarded
silently, and the event is absent exactly when no diff qualified), and the
fresh snapshot is persisted whether or not the diff was included. -/
theorem run_once_steady_inclusion (store : String → Option Snapshot)
    (projects : List ProjectInput)
    (hnd : (projects.map (fun p => p.statePath)).Nodup) :
    (run_once true store projects).diffs
      = projects.filterMap (fun q =>
          if has_changes (compute_diff
              (some ((store q.statePath).getD (emptySnapshotFor q.root))) q.snap) = true
          then some (compute_diff
              (some ((store q.statePath).getD (emptySnapshotFor q.root))) q.snap)
          else none)
    ∧ (∀ p ∈ projects, (run_once true store projects).store p.statePath = some p.snap)
    ∧ ((run_once true store projects).eventDiff = none
        ↔ (run_once true store projects).diffs = [])
    ∧ (∀ d : DiffAggregates, has_changes d = true
        ↔ (0 < d.counts.files_added ∨ 0 < d.counts.files_modified
            ∨ 0 < d.counts.files_removed ∨ d.total_delta_bytes ≠ 0)) := by
  have hσ : ∀ p ∈ projects, (CycleAcc.mk [] [] [] store).store p.statePath = store p.statePath :=
    fun p _ => rfl
  have hspec := foldl_process_spec false projects (CycleAcc.mk [] [] [] store) store hnd hσ
  have hdiffs : (run_once true store projects).diffs
      = projects.filterMap (projContrib false store) := by
    show (projects.foldl (processProject false) (CycleAcc.mk [] [] [] store)).diffs = _
    rw [hspec.1, List.nil_append]
  refine ⟨?_, ?_, ?_, ?_⟩
  · rw [hdiffs]
    exact List.filterMap_congr (fun q _ => projContrib_false_eq store q)
  · intro p hp
    exact hspec.2.2.2 p hp
  · show (if (projects.foldl (processProject false)
        (CycleAcc.mk [] [] [] store)).diffs.isEmpty then none
      else some (merge_diff_aggregates _)) = none
      ↔ (projects.foldl (processProject false) (CycleAcc.mk [] [] [] store)).diffs = []
    rcases hd : (projects.foldl (processProject false)
        (CycleAcc.mk [] [] [] store)).diffs with _ | ⟨d, t⟩
    · simp
    · simp
  · intro d
    unfold has_changes
    simp [or_assoc]

/-- Witness for claim C9 at a concrete one-project cycle: after the baseline
transition a newly discovered project has its snapshot persisted. -/
theorem run_once_steady_inclusion_witness :
    (([ProjectInput.mk "p1" "sp1" "/r" snapNewFile].map (fun p => p.statePath)).Nodup
      ∧ ProjectInput.mk "p1" "sp1" "/r" snapNewFile
          ∈ [ProjectInput.mk "p1" "sp1" "/r" snapNewFile])
    ∧ (run_once true (fun _ => none)
        [ProjectInput.mk "p1" "sp1" "/r" snapNewFile]).store "sp1" = some snapNewFile :=
  ⟨⟨by decide, List.mem_singleton.mpr rfl⟩,
   (run_once_steady_inclusion (fun _ => none) [ProjectInput.mk "p1" "sp1" "/r" snapNewFile]
      (by decide)).2.1 (ProjectInput.mk "p1" "sp1" "/r" snapNewFile)
      (List.mem_singleton.mpr rfl)⟩

/-! ## Exclusion matching (`_is_excluded` from `scanner.py`, claim C2)

Python's `fnmatch.translate` turns `*` into `.*` (matching any character
sequence, separators included) and `?` into `.`; other characters match
literally (on posix `normcase` is the identity).  Character classes
`[...]` are not modeled: no pattern in the repository or the claim uses
them.  The matcher below implements exactly those glob semantics. -/

/-- Does `p` accept some suffix of the list (used for `*`, which may
consume any number of characters)? -/
def anySuffix (p : List Char → Bool) : List Char → Bool
  | [] => p []
  | s@(_ :: cs) => p s || anySuffix p cs

/-- Glob matching: pattern characters against name characters. -/
def globMatch : List Char → List Char → Bool
  | [], s => s.isEmpty
  | c :: ps, s =>
    if c = '*' then anySuffix (globMatch ps) s
    else
      match s with
      | [] => false
      | d :: ds => (c = '?' || c = d) && globMatch ps ds

/-- `fnmatch.fnmatch(name, pat)` on posix. -/
def fnmatch (name pat : String) : Bool :=
  globMatch pat.toList name.toList

/-- The trailing-separator expansion inside `_is_excluded`:
`pat.rstrip("/")` wrapped as `**/…/**` when the pattern ends in `/`
(string tests and stripping done on the character list so the kernel can
evaluate them). -/
def expandDirGlob (pat : String) : String :=
  if pat.toList.getLast? = some '/' then
    "**/" ++ String.mk ((pat.toList.reverse.dropWhile (fun c => c = '/')).reverse) ++ "/**"
  else pat

/-- `_is_excluded` from `scanner.py`. -/
def _is_excluded (rel_posix : String) (exclude_globs : List String) : Bool :=
  exclude_globs.any (fun pat => fnmatch rel_posix (expandDirGlob pat))

/-- Claim C2, evaluated on the code at the failing inputs: the pattern
`"node_modules/"` is expanded to `"**/node_modules/**"`, which does NOT
match the directory itself (`"node_modules"`, `"a/node_modules"`) nor the
subtree of a root-level `node_modules` (`"node_modules/x"`); it matches
only content beneath an occurrence nested at least one level deep
(`"a/node_modules/x"`).  The repository's own scanner test expects the
analogous default pattern `"**/.git/**"` to exclude `".git/config"`, which
this matching also fails. -/
theorem is_excluded_trailing_sep_eval :
    _is_excluded "node_modules" ["node_modules/"] = false
    ∧ _is_excluded "node_modules/x" ["node_modules/"] = false
    ∧ _is_excluded "a/node_modules" ["node_modules/"] = false
    ∧ _is_excluded "a/node_modules/x" ["node_modules/"] = true
    ∧ _is_excluded ".git/config" ["**/.git/**"] = false := by
  refine ⟨?_, ?_, ?_, ?_, ?_⟩ <;> decide

/-! ## LOC estimation (`estimate_loc_from_language_deltas` from
`estimate.py`, claim C7)

Python's `round` is modeled as exact round-half-to-even on the rational
quotient `a / b` (the float detour of CPython agrees on all inputs of
interest; the calibration divisor is a positive integer at every use). -/

/-- `LocEstimates` from `estimate.py`. -/
structure LocEstimates where
  net_loc : Int
  churn_loc : Int
deriving DecidableEq, Repr

/-- Association-list lookup for integer dicts (`dict.get`). -/
def lookupInt (l : List (String × Int)) (k : String) : Option Int :=
  (l.find? (fun e => decide (e.1 = k))).map (fun e => e.2)

/-- `round(a / b)` for `b > 0`: round half to even. -/
def pyRound (a b : Int) : Int :=
  let q := a.fdiv b
  let r := a - q * b
  if 2 * r < b then q
  else if b < 2 * r then q + 1
  else if q % 2 = 0 then q else q + 1

/-- `estimate_loc_from_language_deltas` from `estimate.py`: fold over the
delta dict; `int(bytes_per_loc.get(lang) or 0)` is `getD 0` (both a
missing key and a falsy `0` yield `0`); non-positive calibrations are
skipped. -/
def estimate_loc_from_language_deltas (language_delta_bytes : List (String × Int))
    (bytes_per_loc : List (String × Int)) : LocEstimates :=
  language_delta_bytes.foldl
    (fun acc e =>
      let bpl := (lookupInt bytes_per_loc e.1).getD 0
      if bpl ≤ 0 then acc
      else LocEstimates.mk (acc.net_loc + pyRound e.2 bpl) (acc.churn_loc + pyRound |e.2| bpl))
    (LocEstimates.mk 0 0)

theorem estimate_foldl_spec (bytes_per_loc : List (String × Int)) :
    ∀ (l : List (String × Int)) (acc : LocEstimates),
      l.foldl
        (fun acc e =>
          let bpl := (lookupInt bytes_per_loc e.1).getD 0
          if bpl ≤ 0 then acc
          else LocEstimates.mk (acc.net_loc + pyRound e.2 bpl) (acc.churn_loc + pyRound |e.2| bpl))
        acc
      = LocEstimates.mk
          (acc.net_loc + (l.map (fun e =>
            if 0 < (lookupInt bytes_per_loc e.1).getD 0
            then pyRound e.2 ((lookupInt bytes_per_loc e.1).getD 0) else 0)).sum)
          (acc.churn_loc + (l.map (fun e =>
            if 0 < (lookupInt bytes_per_loc e.1).getD 0
            then pyRound |e.2| ((lookupInt bytes_per_loc e.1).getD 0) else 0)).sum) := by
  intro l
  induction l with
  | nil => intro acc; simp
  | cons e t ih =>
    intro acc
    rw [List.foldl_cons, List.map_cons, List.map_cons, List.sum_cons, List.sum_cons]
    by_cases hb : (lookupInt bytes_per_loc e.1).getD 0 ≤ 0
    · have h1 : ¬ 0 < (lookupInt bytes_per_loc e.1).getD 0 := by omega
      dsimp only
      rw [if_pos hb, if_neg h1, if_neg h1, ih]
      simp
    · have h1 : 0 < (lookupInt bytes_per_loc e.1).getD 0 := by omega
      dsimp only
      rw [if_neg hb, if_pos h1, if_pos h1, ih]
      dsimp only
      rw [LocEstimates.mk.injEq]
      constructor <;> ring

/-- Claim C7: the estimator sums, over exactly the languages whose
calibration is positive, `round(delta / bytes_per_line)` into net and
`round(|delta| / bytes_per_line)` into churn; a language with absent or
non-positive calibration contributes nothing (dropping it leaves the
estimate unchanged); and the spec's concrete examples hold:
`{"Python": +400}` with `{"Python": 40}` gives net 10 / churn 10, and
delta `-400` gives net `-10` / churn 10. -/
theorem estimate_loc_from_language_deltas_spec :
    (∀ (e : String × Int) (rest : List (String × Int)) (tbl : List (String × Int)),
        (lookupInt tbl e.1).getD 0 ≤ 0 →
        estimate_loc_from_language_deltas (e :: rest) tbl
          = estimate_loc_from_language_deltas rest tbl)
    ∧ (∀ (ldb tbl : List (String × Int)),
        (estimate_loc_from_language_deltas ldb tbl).net_loc
          = (ldb.map (fun e =>
              if 0 < (lookupInt tbl e.1).getD 0
              then pyRound e.2 ((lookupInt tbl e.1).getD 0) else 0)).sum
        ∧ (estimate_loc_from_language_deltas ldb tbl).churn_loc
          = (ldb.map (fun e =>
              if 0 < (lookupInt tbl e.1).getD 0
              then pyRound |e.2| ((lookupInt tbl e.1).getD 0) else 0)).sum)
    ∧ estimate_loc_from_language_deltas [("Python", 400)] [("Python", 40)]
        = LocEstimates.mk 10 10
    ∧ estimate_loc_from_language_deltas [("Python", -400)] [("Python", 40)]
        = LocEstimates.mk (-10) 10 := by
  refine ⟨?_, ?_, by decide, by decide⟩
  · intro e rest tbl hb
    unfold estimate_loc_from_language_deltas
    rw [List.foldl_cons]
    dsimp only
    rw [if_pos hb]
  · intro ldb tbl
    unfold estimate_loc_from_language_deltas
    rw [estimate_foldl_spec tbl ldb (LocEstimates.mk 0 0)]
    constructor <;> simp

/-- Witness for claim C7: a concrete language absent from the calibration
table is skipped (the non-positive-calibration hypothesis discharged at
`getD 0 = 0`). -/
theorem estimate_loc_from_language_deltas_spec_witness :
    ((lookupInt [] ("Haskell", (7 : Int)).1).getD 0 ≤ 0)
    ∧ estimate_loc_from_language_deltas [("Haskell", 7)] []
        = estimate_loc_from_language_deltas [] [] :=
  ⟨by decide,
   estimate_loc_from_language_deltas_spec.1 ("Haskell", 7) [] [] (by decide)⟩

/-! ## Snapshot persistence (`state.py`, claims C1 and C3)

A stored snapshot file is modeled as the parsed JSON document: every key
that may be present or absent is an `Option`.  `load_snapshot(path)`
takes `none` when no file exists at the path (Python returns `None`) and
`some doc` otherwise; a `KeyError` raised while rebuilding an entry is
`Except.error`. -/

structure RawMeta where
  rel_path : Option String
  is_dir : Option Bool
  size_bytes : Option Int
  mtime_ns : Option Int
  ext : Option String
deriving DecidableEq, Repr

structure RawDoc where
  schema_version : Option Int
  root : Option String
  created_at : Option String
  entries : Option (List (String × RawMeta))
deriving DecidableEq, Repr

/-- One iteration of the entry loop in `load_snapshot`:
`meta["rel_path"]`, `meta["is_dir"]`, `meta["size_bytes"]` and
`meta["mtime_ns"]` raise `KeyError` when the key is absent; only
`meta.get("ext", "")` has a default. -/
def loadMetaFromRaw (m : RawMeta) : Option FileMeta :=
  match m.rel_path, m.is_dir, m.size_bytes, m.mtime_ns with
  | some rp, some d, some sz, some mt => some (FileMeta.mk rp d sz mt (m.ext.getD ""))
  | _, _, _, _ => none

def loadEntriesFromRaw : List (String × RawMeta) → Option (List (String × FileMeta))
  | [] => some []
  | (rel, m) :: t =>
    match loadMetaFromRaw m, loadEntriesFromRaw t with
    | some fm, some ft => some ((rel, fm) :: ft)
    | _, _ => none

/-- `load_snapshot` from `state.py`: absent file → `none`; otherwise
rebuild every entry (a missing required key raises), defaulting the
top-level keys `schema_version`/`root`/`created_at`/`entries`. -/
def load_snapshot (file : Option RawDoc) : Except Unit (Option Snapshot) :=
  match file with
  | none => Except.ok none
  | some raw =>
    match loadEntriesFromRaw (raw.entries.getD []) with
    | none => Except.error ()
    | some es =>
      Except.ok (some (Snapshot.mk (raw.schema_version.getD 1) (raw.root.getD "")
        (raw.created_at.getD "") es))

/-- A stored document whose single entry lacks only `size_bytes`. -/
def rawDocMissingSize : RawDoc :=
  RawDoc.mk (some 1) (some "/r") (some "t")
    (some [("a", RawMeta.mk (some "a") (some false) none (some 0) (some ""))])

/-- Claim C3, counterexample: a stored entry lacking `size_bytes` does NOT
load with a default — `load_snapshot` raises (KeyError), so the claim that
every missing FileMeta field is defaulted is false at this input. -/
theorem load_snapshot_missing_required_key_fails :
    load_snapshot (some rawDocMissingSize) = Except.error ()
    ∧ ¬ ∃ s : Snapshot, load_snapshot (some rawDocMissingSize) = Except.ok (some s) := by
  refine ⟨rfl, ?_⟩
  rintro ⟨s, hs⟩
  rw [show load_snapshot (some rawDocMissingSize) = Except.error () from rfl] at hs
  exact Except.noConfusion hs

/-- Claim C3 amended: `load_snapshot` returns absent exactly when no file
exists; the top-level keys and the per-entry `ext` key have explicit
defaults (1, "", "", empty dict, ""), but an entry missing `rel_path`,
`is_dir`, `size_bytes` or `mtime_ns` raises instead of defaulting — only
`ext` is forward-compatible. -/
theorem load_snapshot_defaults_spec :
    (∀ f : Option RawDoc, load_snapshot f = Except.ok none ↔ f = none)
    ∧ (∀ (m : RawMeta) (rp : String) (d : Bool) (sz mt : Int),
        m.rel_path = some rp → m.is_dir = some d → m.size_bytes = some sz →
        m.mtime_ns = some mt →
        loadMetaFromRaw m = some (FileMeta.mk rp d sz mt (m.ext.getD "")))
    ∧ (∀ m : RawMeta,
        (m.rel_path = none ∨ m.is_dir = none ∨ m.size_bytes = none ∨ m.mtime_ns = none) →
        loadMetaFromRaw m = none)
    ∧ load_snapshot (some (RawDoc.mk none none none none))
        = Except.ok (some (Snapshot.mk 1 "" "" [])) := by
  refine ⟨?_, ?_, ?_, rfl⟩
  · intro f
    constructor
    · intro h
      cases f with
      | none => rfl
      | some raw =>
        exfalso
        unfold load_snapshot at h
        dsimp only at h
        rcases he : loadEntriesFromRaw (raw.entries.getD []) with _ | es <;> rw [he] at h
        · exact Except.noConfusion h
        · simp at h
    · rintro rfl
      rfl
  · intro m rp d sz mt h1 h2 h3 h4
    unfold loadMetaFromRaw
    rw [h1, h2, h3, h4]
  · intro m hdisj
    obtain ⟨rp, d, sz, mt, ex⟩ := m
    rcases rp with _ | rp <;> rcases d with _ | d <;> rcases sz with _ | sz <;>
      rcases mt with _ | mt <;> simp_all [loadMetaFromRaw]

/-- Witness for the amended claim C3: a concrete entry missing only `ext`
still loads, with `ext` defaulted to the empty string. -/
theorem load_snapshot_defaults_spec_witness :
    ((RawMeta.mk (some "a") (some false) (some 3) (some 4) none).rel_path = some "a"
      ∧ (RawMeta.mk (some "a") (some false) (some 3) (some 4) none).is_dir = some false
      ∧ (RawMeta.mk (some "a") (some false) (some 3) (some 4) none).size_bytes = some 3
      ∧ (RawMeta.mk (some "a") (some false) (some 3) (some 4) none).mtime_ns = some 4)
    ∧ loadMetaFromRaw (RawMeta.mk (some "a") (some false) (some 3) (some 4) none)
        = some (FileMeta.mk "a" false 3 4 "") :=
  ⟨⟨rfl, rfl, rfl, rfl⟩,
   load_snapshot_defaults_spec.2.1 (RawMeta.mk (some "a") (some false) (some 3) (some 4) none)
     "a" false 3 4 rfl rfl rfl rfl⟩

/-! ## `save_snapshot` and its write discipline (claim C1)

`save_snapshot` serializes the snapshot with
`json.dumps(raw, indent=2, sort_keys=True)` and writes it with a single
`path.write_text(...)`.  The serializer below models `json.dumps` for
exactly the documents `save_snapshot` builds (fixed key sets, sorted key
order, indent 2, `ensure_ascii` escaping); the file-system effects of the
save are modeled as a trace of operations, where a `write_text` is the
non-atomic micro-sequence truncate-then-set-content (`open("w")`
truncates before the content is written). -/

/-- Lowercase hexadecimal digit (as used by `json.dumps` escapes). -/
def hexDigit (n : Nat) : Char :=
  if n < 10 then Char.ofNat (48 + n) else Char.ofNat (87 + n)

/-- `\uXXXX` escape for a code unit. -/
def uEscape (n : Nat) : List Char :=
  ['\\', 'u', hexDigit (n / 4096 % 16), hexDigit (n / 256 % 16),
   hexDigit (n / 16 % 16), hexDigit (n % 16)]

/-- Escaping of one character as in `json.dumps` with `ensure_ascii`. -/
def escapeChar (c : Char) : List Char :=
  if c = '"' then ['\\', '"']
  else if c = '\\' then ['\\', '\\']
  else if c.toNat = 10 then ['\\', 'n']
  else if c.toNat = 9 then ['\\', 't']
  else if c.toNat = 13 then ['\\', 'r']
  else if c.toNat = 8 then ['\\', 'b']
  else if c.toNat = 12 then ['\\', 'f']
  else if c.toNat < 32 then uEscape c.toNat
  else if c.toNat < 127 then [c]
  else if c.toNat ≤ 65535 then uEscape c.toNat
  else uEscape (55296 + (c.toNat - 65536) / 1024) ++ uEscape (56320 + (c.toNat - 65536) % 1024)

/-- A JSON string literal. -/
def jsonQuote (s : String) : String :=
  String.mk ('"' :: ((s.toList.map escapeChar).flatten ++ ['"']))

/-- Ascending insertion by key (for `sort_keys=True`; snapshot keys are
unique so ties do not arise). -/
def insertByKey (e : String × FileMeta) : List (String × FileMeta) → List (String × FileMeta)
  | [] => [e]
  | f :: t => if decide (e.1 < f.1) then e :: f :: t else f :: insertByKey e t

def sortByKey : List (String × FileMeta) → List (String × FileMeta)
  | [] => []
  | e :: t => insertByKey e (sortByKey t)

def joinSep (sep : String) : List String → String
  | [] => ""
  | [s] => s
  | s :: t => s ++ sep ++ joinSep sep t

/-- `FileMeta.to_json` rendered at nesting level 2 (keys in sorted
order: ext, is_dir, mtime_ns, rel_path, size_bytes). -/
def dumpsMeta (m : FileMeta) : String :=
  "\x7b\n      " ++ jsonQuote "ext" ++ ": " ++ jsonQuote m.ext ++ ",\n      "
    ++ jsonQuote "is_dir" ++ ": " ++ (if m.is_dir then "true" else "false") ++ ",\n      "
    ++ jsonQuote "mtime_ns" ++ ": " ++ toString m.mtime_ns ++ ",\n      "
    ++ jsonQuote "rel_path" ++ ": " ++ jsonQuote m.rel_path ++ ",\n      "
    ++ jsonQuote "size_bytes" ++ ": " ++ toString m.size_bytes ++ "\n    \x7d"

/-- The entries dict rendered at nesting level 1, keys sorted. -/
def dumpsEntries (entries : List (String × FileMeta)) : String :=
  match sortByKey entries with
  | [] => "\x7b\x7d"
  | es => "\x7b\n"
      ++ joinSep ",\n" (es.map (fun e => "    " ++ jsonQuote e.1 ++ ": " ++ dumpsMeta e.2))
      ++ "\n  \x7d"

/-- `json.dumps(raw, indent=2, sort_keys=True)` for the document built by
`save_snapshot` (top-level keys in sorted order: created_at, entries,
root, schema_version). -/
def dumpsSnapshot (snap : Snapshot) : String :=
  "\x7b\n  " ++ jsonQuote "created_at" ++ ": " ++ jsonQuote snap.created_at ++ ",\n  "
    ++ jsonQuote "entries" ++ ": " ++ dumpsEntries snap.entries ++ ",\n  "
    ++ jsonQuote "root" ++ ": " ++ jsonQuote snap.root ++ ",\n  "
    ++ jsonQuote "schema_version" ++ ": " ++ toString snap.schema_version ++ "\n\x7d"

theorem dumpsSnapshot_ne_empty (snap : Snapshot) : dumpsSnapshot snap ≠ "" := by
  intro h
  have hd := congrArg String.data h
  unfold dumpsSnapshot at hd
  simp [String.data_append] at hd

/-- Everything between the last separator and the end of `p`
(`path.parent`). -/
def parentDir (p : String) : String :=
  String.intercalate "/" ((p.splitOn "/").dropLast)

/-- File-system operations performed by the Python code. -/
inductive FsOp where
  | mkdirParents (dir : String)
  | writeText (path : String) (content : String)
  | replaceFile (src : String) (dst : String)
deriving DecidableEq, Repr

/-- The effect trace of `save_snapshot(path, snapshot)`:
`path.parent.mkdir(parents=True, exist_ok=True)` then a single direct
`path.write_text(json.dumps(...))` — no temporary file, no atomic
replace. -/
def save_snapshot_ops (path : String) (snap : Snapshot) : List FsOp :=
  [FsOp.mkdirParents (parentDir path), FsOp.writeText path (dumpsSnapshot snap)]

/-- Micro-steps visible to a concurrent or post-crash reader. -/
inductive MicroOp where
  | ensureDir (dir : String)
  | truncate (path : String)
  | setContent (path : String) (content : String)
  | rename (src : String) (dst : String)
deriving DecidableEq, Repr

/-- `write_text` opens with mode `w` (truncating the file to empty) and
then writes the content; `replace` is a single atomic rename. -/
def microOps : FsOp → List MicroOp
  | FsOp.mkdirParents d => [MicroOp.ensureDir d]
  | FsOp.writeText p c => [MicroOp.truncate p, MicroOp.setContent p c]
  | FsOp.replaceFile s d => [MicroOp.rename s d]

/-- Files only: path → contents. -/
def applyMicro (fs : String → Option String) : MicroOp → String → Option String
  | MicroOp.ensureDir _ => fs
  | MicroOp.truncate p => fun q => if q = p then some "" else fs q
  | MicroOp.setContent p c => fun q => if q = p then some c else fs q
  | MicroOp.rename s d => fun q => if q = d then fs s else if q = s then none else fs q

def runMicro (fs : String → Option String) (ops : List MicroOp) : String → Option String :=
  ops.foldl applyMicro fs

/-- Claim C1, counterexample: interrupting `save_snapshot` right after the
`open("w")` truncation (a prefix of its effect trace) leaves an existing
empty file at the path, which is neither the previously persisted state
(no file) nor the complete serialized snapshot — a half-written snapshot
is visible to the next load, falsifying the write-to-temporary-then-
atomic-replace claim. -/
theorem save_snapshot_not_atomic_counterexample :
    runMicro (fun _ => none)
        ((((save_snapshot_ops "/s/state.json" (Snapshot.mk 1 "/r" "t" [])).map
            microOps).flatten).take 2) "/s/state.json" = some ""
    ∧ ¬ (runMicro (fun _ => none)
          ((((save_snapshot_ops "/s/state.json" (Snapshot.mk 1 "/r" "t" [])).map
              microOps).flatten).take 2) "/s/state.json" = none
        ∨ runMicro (fun _ => none)
            ((((save_snapshot_ops "/s/state.json" (Snapshot.mk 1 "/r" "t" [])).map
                microOps).flatten).take 2) "/s/state.json"
            = some (dumpsSnapshot (Snapshot.mk 1 "/r" "t" []))) := by
  have h : runMicro (fun _ => none)
      ((((save_snapshot_ops "/s/state.json" (Snapshot.mk 1 "/r" "t" [])).map
          microOps).flatten).take 2) "/s/state.json" = some "" := by
    show (if "/s/state.json" = "/s/state.json" then some "" else none) = some ""
    rw [if_pos rfl]
  refine ⟨h, ?_⟩
  rintro (hc | hc)
  · rw [h] at hc
    exact Option.noConfusion hc
  · rw [h] at hc
    exact dumpsSnapshot_ne_empty (Snapshot.mk 1 "/r" "t" []) (Option.some.inj hc).symm

/-- Claim C1 amended: `save_snapshot` creates the parent directory and
then writes the deterministically serialized snapshot (sorted keys)
directly to the target path in one `write_text`, with no temporary file
and no atomic replace; consequently there is an interruption point (after
the truncating open, before the content write) at which the path holds an
empty — half-written — file that is not the serialized snapshot, even
when no file existed before. -/
theorem save_snapshot_ops_spec (path : String) (snap : Snapshot) :
    save_snapshot_ops path snap
      = [FsOp.mkdirParents (parentDir path), FsOp.writeText path (dumpsSnapshot snap)]
    ∧ (∀ op ∈ save_snapshot_ops path snap, ∀ src dst, op ≠ FsOp.replaceFile src dst)
    ∧ (∀ fs0 : String → Option String, fs0 path = none →
        ∃ k, runMicro fs0 ((((save_snapshot_ops path snap).map microOps).flatten).take k) path
              = some ""
          ∧ some "" ≠ some (dumpsSnapshot snap)) := by
  refine ⟨rfl, ?_, ?_⟩
  · intro op hop src dst
    rcases List.mem_cons.mp hop with h | h
    · subst h; exact fun he => FsOp.noConfusion he
    · rcases List.mem_cons.mp h with h | h
      · subst h; exact fun he => FsOp.noConfusion he
      · exact absurd h (List.not_mem_nil op)
  · intro fs0 _
    refine ⟨2, ?_, ?_⟩
    · show (if path = path then some "" else fs0 path) = some ""
      rw [if_pos rfl]
    · intro h
      exact dumpsSnapshot_ne_empty snap (Option.some.inj h).symm

/-- Witness for the amended claim C1: at a concrete path, snapshot and an
initially empty file system, the interruption point exists. -/
theorem save_snapshot_ops_spec_witness :
    ((fun _ : String => (none : Option String)) "/s/state.json" = none)
    ∧ ∃ k, runMicro (fun _ => none)
          ((((save_snapshot_ops "/s/state.json" (Snapshot.mk 1 "/r" "t" [])).map
              microOps).flatten).take k) "/s/state.json" = some ""
        ∧ some "" ≠ some (dumpsSnapshot (Snapshot.mk 1 "/r" "t" [])) :=
  ⟨rfl,
   (save_snapshot_ops_spec "/s/state.json" (Snapshot.mk 1 "/r" "t" [])).2.2
     (fun _ => none) rfl⟩
